import Mathlib

/-!
# Third-party resource data codec (pkg/registry/thirdpartyresourcedata/codec.go)

A shallow embedding of the dynamic codec of `codec.go` and the properties of its
decode / encode paths.

Conventions of the embedding.

* Go `string` and `[]byte` values are finite sequences of bytes on which the code only
  performs equality tests, concatenation and parsing.  Both are embedded as Lean `String`
  (one character per byte); `string(b)` and `buff.Bytes()` are therefore the identity.
* A Go `map[string]T` is an association list (`GoMap T`).  `mapGet` is the lookup
  `v, ok := m[k]`, `mapSet` is the assignment `m[k] = v`.  A `nil` map is `none`.
* A method with a pointer argument that it mutates returns the state of the pointee after
  the call together with the returned `error` (`none` is Go's `nil` error).
* `json.Unmarshal` belongs to the Go standard library, not to the repository: every
  function that calls it takes the parser as its first argument `unmarshal`.  A reference
  parser `jsonUnmarshal` for a fragment of JSON is supplied for evaluating concrete inputs.
* The text of error messages is not modelled: every `fmt.Errorf` site of the source is one
  constructor of `Err`.
-/

namespace ThirdPartyCodec

/-! ## Data model -/

/-- Go `map[string]T`: association list from keys to values. -/
abbrev GoMap (α : Type) := List (String × α)

/-- The lookup `v, ok := m[k]` of a Go map. -/
def mapGet {α : Type} : GoMap α → String → Option α
  | [], _ => none
  | (k', v) :: rest, k => if k' = k then some v else mapGet rest k

/-- The assignment `m[k] = v` of a Go map: overwrite the entry of `k`, or add one. -/
def mapSet {α : Type} : GoMap α → String → α → GoMap α
  | [], k, v => [(k, v)]
  | (k', v') :: rest, k, v => if k' = k then (k, v) :: rest else (k', v') :: mapSet rest k v

/-- The keys of a Go map. -/
def mapKeys {α : Type} (m : GoMap α) : List String := m.map Prod.fst

/-- The value `json.Unmarshal` stores into an `interface{}`: `nil`, `bool`, `float64`
(kept as its literal), `string`, `[]interface{}` or `map[string]interface{}`. -/
inductive JSON where
  | null : JSON
  | bool (b : Bool) : JSON
  | number (literal : String) : JSON
  | str (s : String) : JSON
  | arr (elems : List JSON) : JSON
  | obj (entries : List (String × JSON)) : JSON

/-- The type assertion `x.(string)` on the result of a map lookup (a missing key yields the
`nil` interface, on which the assertion fails). -/
def asString : Option JSON → Option String
  | some (JSON.str s) => some s
  | _ => none

/-- The type assertion `x.(map[string]interface{})` on the result of a map lookup. -/
def asMap : Option JSON → Option (GoMap JSON)
  | some (JSON.obj m) => some m
  | _ => none

/-- Go `error` values produced by `codec.go`, one constructor per `fmt.Errorf` site, and
`external` for an error handed back by a collaborator (`json.Unmarshal`, the delegate
codec, the wrapped mapper or creator). -/
inductive Err where
  | external (msg : String)
  | unexpectedObject
  | unexpectedObjectForKind
  | unexpectedKind (kind expected : String)
  | unexpectedObjectForMetadata
  | unexpectedObjectForResourceVersion
  | unexpectedObjectForName
  | unexpectedObjectForLabels
  | unexpectedLabel
  | unexpectedTarget
  | unexpecetedKind (kind : String)
  | unexpctedObject
  | unexpectedObjectForKindEntry
  | kindDoesntMatch (expecting got : String)
  | unexpectedObjectForApiVersion
  | versionDoesntMatch (expecting got : String)
  | unexpectedObjectToEncode
  | unexpectedSetOfVersions (versions : List String)
  | unknownVersion (version expected : String)
  | unknownKind (kind expected : String)
  | unknownVersionForKind (version kind : String)
  deriving DecidableEq

/-- Modelled from the spec: the struct `expapi.ThirdPartyResourceData` (Envelope Entity),
declared outside the files at hand.  It carries the fields the codec reads or writes:
`Name`, `Namespace`, `Labels`, `ResourceVersion` of its object metadata and the raw
body `Data`. -/
structure ThirdPartyResourceData where
  Name : String
  Namespace : String
  Labels : Option (GoMap String)
  ResourceVersion : String
  Data : String
  deriving DecidableEq

/-- The Go zero value `expapi.ThirdPartyResourceData{}`. -/
def ThirdPartyResourceData.empty : ThirdPartyResourceData :=
  { Name := "", Namespace := "", Labels := none, ResourceVersion := "", Data := "" }

/-- Modelled from the spec: the struct `expapi.ThirdPartyResourceDataList` (Envelope
List), an ordered sequence of entities. -/
structure ThirdPartyResourceDataList where
  Items : List ThirdPartyResourceData
  deriving DecidableEq

/-- Modelled from the spec: the struct `api.Status`, the generic status / error object. -/
structure Status where
  Status : String
  Message : String
  Reason : String
  Code : Int
  deriving DecidableEq

/-- The dynamic types of a non-nil `runtime.Object` that `codec.go` distinguishes: pointers
to an entity, to a list, to a status, and any other type (named by `typeName`). -/
inductive Object where
  | thirdPartyResourceData (obj : ThirdPartyResourceData)
  | thirdPartyResourceDataList (obj : ThirdPartyResourceDataList)
  | status (obj : Status)
  | other (typeName : String)
  deriving DecidableEq

/-- The methods of the delegate `runtime.Codec` that `codec.go` calls. -/
structure Delegate where
  Encode : Object → Except Err String
  DecodeToVersion : String → String → Except Err Object

/-- The struct `thirdPartyResourceDataCodec`. -/
structure thirdPartyResourceDataCodec where
  delegate : Delegate
  kind : String

/-- The constructor `NewCodec`. -/
def NewCodec (codec : Delegate) (kind : String) : thirdPartyResourceDataCodec :=
  { delegate := codec, kind := kind }

/-- The type of `json.Unmarshal(data, &obj)` for `obj` of type `interface{}`. -/
abbrev Unmarshal := String → Except Err JSON

/-! ## A reference parser

`jsonUnmarshal` instantiates the parameter `unmarshal` on concrete inputs.  It reads the
JSON grammar of RFC 8259 without `\u` escapes (which it rejects), keeps the literal of a
number, and lets the last of several equal member names win, as the assignment into a Go
map does. -/

/-- Skip JSON white space. -/
def skipWS : List Char → List Char
  | [] => []
  | c :: cs => if c = ' ' ∨ c = '\t' ∨ c = '\n' ∨ c = '\r' then skipWS cs else c :: cs

/-- The character denoted by the escape `\c` inside a JSON string. -/
def unescape (c : Char) : Option Char :=
  if c = '"' then some '"'
  else if c = '\\' then some '\\'
  else if c = '/' then some '/'
  else if c = 'b' then some (Char.ofNat 8)
  else if c = 'f' then some (Char.ofNat 12)
  else if c = 'n' then some '\n'
  else if c = 'r' then some '\r'
  else if c = 't' then some '\t'
  else none

/-- Read a JSON string after its opening quote; `acc` holds the characters read so far,
last first. -/
def scanString : List Char → List Char → Option (String × List Char)
  | [], _ => none
  | c :: rest, acc =>
    if c = '"' then some (String.mk acc.reverse, rest)
    else if c = '\\' then
      match rest with
      | e :: rest' =>
        match unescape e with
        | some d => scanString rest' (d :: acc)
        | none => none
      | [] => none
    else if c.toNat < 32 then none
    else scanString rest (c :: acc)

/-- The longest run of decimal digits at the head of the input, and what follows it. -/
def scanDigits : List Char → List Char × List Char
  | [] => ([], [])
  | c :: cs =>
    if c.isDigit then ((c :: (scanDigits cs).1), (scanDigits cs).2) else ([], c :: cs)

/-- Read a JSON number: sign, integer part, fraction, exponent. -/
def scanNumber (cs : List Char) : Option (String × List Char) :=
  let signed : List Char × List Char :=
    match cs with
    | '-' :: r => (['-'], r)
    | _ => ([], cs)
  let intPart : Option (List Char × List Char) :=
    match signed.2 with
    | [] => none
    | c :: r =>
      if c = '0' then some (['0'], r)
      else if c.isDigit then some (c :: (scanDigits r).1, (scanDigits r).2)
      else none
  match intPart with
  | none => none
  | some (ds, r1) =>
    let frac : Option (List Char × List Char) :=
      match r1 with
      | '.' :: r =>
        if (scanDigits r).1 = [] then none else some ('.' :: (scanDigits r).1, (scanDigits r).2)
      | _ => some ([], r1)
    match frac with
    | none => none
    | some (fs, r2) =>
      match r2 with
      | e :: r =>
        if e = 'e' ∨ e = 'E' then
          let sg : List Char × List Char :=
            match r with
            | '+' :: r' => (['+'], r')
            | '-' :: r' => (['-'], r')
            | _ => ([], r)
          if (scanDigits sg.2).1 = [] then none
          else some (String.mk (signed.1 ++ ds ++ fs ++ e :: sg.1 ++ (scanDigits sg.2).1),
                     (scanDigits sg.2).2)
        else some (String.mk (signed.1 ++ ds ++ fs), r2)
      | [] => some (String.mk (signed.1 ++ ds ++ fs), [])

/-- What the parser is reading: a value, the rest of an array whose earlier elements are
`acc` (last first), or the rest of an object whose earlier members are `acc`. -/
inductive Mode where
  | value
  | elems (acc : List JSON)
  | members (acc : GoMap JSON)

/-- Recursive-descent JSON parser; `fuel` bounds the number of calls. -/
def parseJSON : Nat → Mode → List Char → Option (JSON × List Char)
  | 0, _, _ => none
  | fuel + 1, Mode.value, cs =>
    match skipWS cs with
    | 'n' :: 'u' :: 'l' :: 'l' :: rest => some (JSON.null, rest)
    | 't' :: 'r' :: 'u' :: 'e' :: rest => some (JSON.bool true, rest)
    | 'f' :: 'a' :: 'l' :: 's' :: 'e' :: rest => some (JSON.bool false, rest)
    | '"' :: rest =>
      match scanString rest [] with
      | some (s, rest') => some (JSON.str s, rest')
      | none => none
    | '[' :: rest =>
      match skipWS rest with
      | ']' :: rest' => some (JSON.arr [], rest')
      | _ => parseJSON fuel (Mode.elems []) rest
    | '\x7b' :: rest =>
      match skipWS rest with
      | '\x7d' :: rest' => some (JSON.obj [], rest')
      | _ => parseJSON fuel (Mode.members []) rest
    | cs' =>
      match scanNumber cs' with
      | some (n, rest) => some (JSON.number n, rest)
      | none => none
  | fuel + 1, Mode.elems acc, cs =>
    match parseJSON fuel Mode.value cs with
    | none => none
    | some (v, rest) =>
      match skipWS rest with
      | ',' :: rest' => parseJSON fuel (Mode.elems (v :: acc)) rest'
      | ']' :: rest' => some (JSON.arr (v :: acc).reverse, rest')
      | _ => none
  | fuel + 1, Mode.members acc, cs =>
    match skipWS cs with
    | '"' :: rest =>
      match scanString rest [] with
      | none => none
      | some (key, rest1) =>
        match skipWS rest1 with
        | ':' :: rest2 =>
          match parseJSON fuel Mode.value rest2 with
          | none => none
          | some (v, rest3) =>
            match skipWS rest3 with
            | ',' :: rest4 => parseJSON fuel (Mode.members (mapSet acc key v)) rest4
            | '\x7d' :: rest4 => some (JSON.obj (mapSet acc key v), rest4)
            | _ => none
        | _ => none
    | _ => none

/-- A reference instance of `json.Unmarshal` into an `interface{}`: one JSON value,
surrounded by optional white space. -/
def jsonUnmarshal : Unmarshal := fun data =>
  match parseJSON (2 * data.data.length + 2) Mode.value data.data with
  | some (v, rest) =>
    if skipWS rest = [] then Except.ok v
    else Except.error (Err.external "invalid character after top-level value")
  | none => Except.error (Err.external "invalid JSON")

/-! ## Decoding -/

/-- The `resourceVersion` block of `populateFromObject` (lines 116-123). -/
def populateResourceVersion (objIn : ThirdPartyResourceData) (metadata : GoMap JSON) :
    ThirdPartyResourceData × Option Err :=
  match mapGet metadata "resourceVersion" with
  | some resourceVersion =>
    match resourceVersion with
    | JSON.str resourceVersionStr => ({ objIn with ResourceVersion := resourceVersionStr }, none)
    | _ => (objIn, some Err.unexpectedObjectForResourceVersion)
  | none => (objIn, none)

/-- The loop `for key, value := range labelMap` of `populateFromObject` (lines 135-144);
the entries are visited in the order of the association list. -/
def populateLabels (objIn : ThirdPartyResourceData) :
    GoMap JSON → ThirdPartyResourceData × Option Err
  | [] => (objIn, none)
  | (key, value) :: rest =>
    match value with
    | JSON.str valueStr =>
      let labels : GoMap String :=
        match objIn.Labels with
        | none => []
        | some m => m
      populateLabels { objIn with Labels := some (mapSet labels key valueStr) } rest
    | _ => (objIn, some Err.unexpectedLabel)

/-- The `labels` block of `populateFromObject` (lines 130-145). -/
def populateLabelsBlock (objIn : ThirdPartyResourceData) (metadata : GoMap JSON) :
    ThirdPartyResourceData × Option Err :=
  match mapGet metadata "labels" with
  | some labels =>
    match labels with
    | JSON.obj labelMap => populateLabels objIn labelMap
    | _ => (objIn, some Err.unexpectedObjectForLabels)
  | none => (objIn, none)

/-- The method `populateFromObject` (lines 102-150). -/
def populateFromObject (t : thirdPartyResourceDataCodec) (objIn : ThirdPartyResourceData)
    (mapObj : GoMap JSON) (data : String) : ThirdPartyResourceData × Option Err :=
  match asString (mapGet mapObj "kind") with
  | none => (objIn, some Err.unexpectedObjectForKind)
  | some kind =>
    if kind ≠ t.kind then (objIn, some (Err.unexpectedKind kind t.kind))
    else
      match asMap (mapGet mapObj "metadata") with
      | none => (objIn, some Err.unexpectedObjectForMetadata)
      | some metadata =>
        match populateResourceVersion objIn metadata with
        | (objIn, some err) => (objIn, some err)
        | (objIn, none) =>
          match asString (mapGet metadata "name") with
          | none => (objIn, some Err.unexpectedObjectForName)
          | some name =>
            match populateLabelsBlock objIn metadata with
            | (objIn, some err) => (objIn, some err)
            | (objIn, none) => ({ objIn with Name := name, Data := data }, none)

/-- The method `populate` (lines 89-100).  The diagnostic `fmt.Printf` on a parse failure
writes to standard output only and is not part of the state. -/
def populate (unmarshal : Unmarshal) (t : thirdPartyResourceDataCodec)
    (objIn : ThirdPartyResourceData) (data : String) : ThirdPartyResourceData × Option Err :=
  match unmarshal data with
  | Except.error err => (objIn, some err)
  | Except.ok obj =>
    match obj with
    | JSON.obj mapObj => populateFromObject t objIn mapObj data
    | _ => (objIn, some Err.unexpectedObject)

/-- The method `Decode` (lines 152-158). -/
def Decode (unmarshal : Unmarshal) (t : thirdPartyResourceDataCodec) (data : String) :
    Except Err Object :=
  match populate unmarshal t ThirdPartyResourceData.empty data with
  | (_, some err) => Except.error err
  | (result, none) => Except.ok (Object.thirdPartyResourceData result)

/-- The method `DecodeInto` (lines 173-179): the target after the call and the error. -/
def DecodeInto (unmarshal : Unmarshal) (t : thirdPartyResourceDataCodec) (data : String)
    (obj : Object) : Object × Option Err :=
  match obj with
  | Object.thirdPartyResourceData thirdParty =>
    match populate unmarshal t thirdParty data with
    | (thirdParty, err) => (Object.thirdPartyResourceData thirdParty, err)
  | _ => (obj, some Err.unexpectedTarget)

/-- The `kind` block of `DecodeIntoWithSpecifiedVersionKind` (lines 199-209): the parsed
map after the block, or the error. -/
def checkKind (t : thirdPartyResourceDataCodec) (mapObj : GoMap JSON) (kind : String) :
    Except Err (GoMap JSON) :=
  match mapGet mapObj "kind" with
  | none => Except.ok (mapSet mapObj "kind" (JSON.str kind))
  | some kindObj =>
    match kindObj with
    | JSON.str kindStr =>
      if kindStr ≠ t.kind then Except.error (Err.kindDoesntMatch kind kindStr)
      else Except.ok mapObj
    | _ => Except.error Err.unexpectedObjectForKindEntry

/-- The `apiVersion` block of `DecodeIntoWithSpecifiedVersionKind` (lines 210-220). -/
def checkVersion (mapObj : GoMap JSON) (version : String) : Except Err (GoMap JSON) :=
  match mapGet mapObj "apiVersion" with
  | none => Except.ok (mapSet mapObj "apiVersion" (JSON.str version))
  | some versionObj =>
    match versionObj with
    | JSON.str versionStr =>
      if versionStr ≠ version then Except.error (Err.versionDoesntMatch version versionStr)
      else Except.ok mapObj
    | _ => Except.error Err.unexpectedObjectForApiVersion

/-- The method `DecodeIntoWithSpecifiedVersionKind` (lines 181-226): the target after the
call and the error.  The parsed map `mapObj`, with the defaults written into it, is local
to the call; `populate` runs on the bytes `data`. -/
def DecodeIntoWithSpecifiedVersionKind (unmarshal : Unmarshal)
    (t : thirdPartyResourceDataCodec) (data : String) (obj : Object)
    (version kind : String) : Object × Option Err :=
  match obj with
  | Object.thirdPartyResourceData thirdParty =>
    if kind ≠ "ThirdPartyResourceData" then (obj, some (Err.unexpecetedKind kind))
    else
      match unmarshal data with
      | Except.error err => (obj, some err)
      | Except.ok dataObj =>
        match dataObj with
        | JSON.obj mapObj =>
          match checkKind t mapObj kind with
          | Except.error err => (obj, some err)
          | Except.ok mapObj =>
            match checkVersion mapObj version with
            | Except.error err => (obj, some err)
            | Except.ok _ =>
              match populate unmarshal t thirdParty data with
              | (thirdParty, err) => (Object.thirdPartyResourceData thirdParty, err)
        | _ => (obj, some Err.unexpctedObject)
  | _ => (obj, some Err.unexpectedTarget)

/-! ## Encoding -/

/-- The constant `template` (lines 228-231), a raw string literal of four lines. -/
def template : String :=
  "\x7b\n  \"kind\": \"%s\",\n  \"items\": [ %s ]\n\x7d"

/-- The formatting of `fmt.Fprintf` for format strings whose only verb is `%s`, applied to
string operands: each `%s` is replaced by the next operand, every other character is
copied.  A `%s` without operand prints Go's `%!s(MISSING)`. -/
def sprintfChars : List Char → List String → List Char
  | [], _ => []
  | '%' :: 's' :: rest, a :: args => a.data ++ sprintfChars rest args
  | '%' :: 's' :: rest, [] => "%!s(MISSING)".data ++ sprintfChars rest []
  | c :: rest, args => c :: sprintfChars rest args

/-- The bytes `fmt.Fprintf(buff, format, args...)` writes into an empty buffer. -/
def Sprintf (format : String) (args : List String) : String :=
  String.mk (sprintfChars format.data args)

/-- The function `strings.Join`. -/
def Join : List String → String → String
  | [], _ => ""
  | [a], _ => a
  | a :: b :: rest, sep => a ++ sep ++ Join (b :: rest) sep

/-- The method `Encode` (lines 233-251). -/
def Encode (t : thirdPartyResourceDataCodec) (obj : Object) : Except Err String :=
  match obj with
  | Object.thirdPartyResourceData obj => Except.ok obj.Data
  | Object.thirdPartyResourceDataList obj =>
    let dataStrings := obj.Items.map (fun item => item.Data)
    Except.ok (Sprintf template [t.kind ++ "List", Join dataStrings ","])
  | Object.status obj => t.delegate.Encode (Object.status obj)
  | _ => Except.error Err.unexpectedObjectToEncode


/-! ## REST mapping overlay and object creator

The constant `latest.Version` of the package `expapi/latest` is declared outside the files at
hand: the two methods that read it take it as their first argument `latestVersion`. -/

/-- Modelled from the spec: the struct `meta.RESTMapping`, the association between a
resource type and its codec.  `C` is the type of the value held in the field `Codec`: the
wrapped mapper hands out a mapping with a generic codec, the overlay one with a
`thirdPartyResourceDataCodec`. -/
structure RESTMapping (C : Type) where
  Resource : String
  APIVersion : String
  Kind : String
  Scope : String
  Codec : C

/-- The method of the wrapped `meta.RESTMapper` that the overlay customises; the variadic
`versions ...string` is a list. -/
structure RESTMapper where
  RESTMapping : String → List String → Except Err (RESTMapping Delegate)

/-- The struct `thirdPartyResourceDataMapper`. -/
structure thirdPartyResourceDataMapper where
  mapper : RESTMapper
  kind : String
  version : String

/-- The constructor `NewMapper`. -/
def NewMapper (mapper : RESTMapper) (kind version : String) : thirdPartyResourceDataMapper :=
  { mapper := mapper, kind := kind, version := version }

/-- The method `RESTMapping` of `thirdPartyResourceDataMapper` (lines 42-58).  The first
pattern is the case `len(versions) == 1` with `version = versions[0]`. -/
def thirdPartyResourceDataMapper.RESTMapping (latestVersion : String)
    (t : thirdPartyResourceDataMapper) (kind : String) (versions : List String) :
    Except Err (ThirdPartyCodec.RESTMapping thirdPartyResourceDataCodec) :=
  match versions with
  | [version] =>
    if version ≠ t.version then Except.error (Err.unknownVersion version t.version)
    else if kind ≠ "ThirdPartyResourceData" then Except.error (Err.unknownKind kind t.kind)
    else
      match t.mapper.RESTMapping "ThirdPartyResourceData" [latestVersion] with
      | Except.error err => Except.error err
      | Except.ok mapping =>
        Except.ok
          { Resource := mapping.Resource, APIVersion := mapping.APIVersion,
            Kind := mapping.Kind, Scope := mapping.Scope,
            Codec := NewCodec mapping.Codec t.kind }
  | _ => Except.error (Err.unexpectedSetOfVersions versions)

/-- The method of the `runtime.ObjectCreater` interface. -/
structure ObjectCreater where
  New : String → String → Except Err Object

/-- The struct `thirdPartyResourceDataCreator`. -/
structure thirdPartyResourceDataCreator where
  version : String
  delegate : ObjectCreater

/-- The constructor `NewObjectCreator`. -/
def NewObjectCreator (version : String) (delegate : ObjectCreater) :
    thirdPartyResourceDataCreator :=
  { version := version, delegate := delegate }

/-- The method `New` of `thirdPartyResourceDataCreator` (lines 262-274). -/
def thirdPartyResourceDataCreator.New (latestVersion : String)
    (t : thirdPartyResourceDataCreator) (version kind : String) : Except Err Object :=
  if t.version ≠ version then Except.error (Err.unknownVersionForKind version kind)
  else if kind = "ThirdPartyResourceData" then
    Except.ok (Object.thirdPartyResourceData ThirdPartyResourceData.empty)
  else if kind = "ThirdPartyResourceDataList" then
    Except.ok (Object.thirdPartyResourceDataList { Items := [] })
  else t.delegate.New latestVersion kind

/-! ## Concrete instances -/

/-- The lookup `labels[key]` in the `Labels` of an entity; a `nil` map has no entry. -/
def labelOf (o : ThirdPartyResourceData) (key : String) : Option String :=
  match o.Labels with
  | none => none
  | some m => mapGet m key

/-- A delegate codec that rejects everything. -/
def rejectingDelegate : Delegate :=
  { Encode := fun _ => Except.error (Err.external "no delegate"),
    DecodeToVersion := fun _ _ => Except.error (Err.external "no delegate") }

/-- The codec of the binding with kind `Foo`. -/
def fooCodec : thirdPartyResourceDataCodec := NewCodec rejectingDelegate "Foo"

/-- The codec of the binding with kind `Bar`. -/
def barCodec : thirdPartyResourceDataCodec := NewCodec rejectingDelegate "Bar"

/-- The payload `{"kind":"Foo","metadata":{"name":"bar","labels":{"x":"y"}}}`. -/
def fooBarPayload : String :=
  "\x7b\"kind\":\"Foo\",\"metadata\":\x7b\"name\":\"bar\",\"labels\":\x7b\"x\":\"y\"\x7d\x7d\x7d"

/-- The payload `{"kind":"Foo","metadata":{"name":"n"}}`. -/
def minimalPayload : String :=
  "\x7b\"kind\":\"Foo\",\"metadata\":\x7b\"name\":\"n\"\x7d\x7d"

/-- The payload `{"kind":"Foo","metadata":{"resourceVersion":"5"}}`, which has no name. -/
def namelessPayload : String :=
  "\x7b\"kind\":\"Foo\",\"metadata\":\x7b\"resourceVersion\":\"5\"\x7d\x7d"

/-- The payload `{"kind":"Foo","metadata":{"name":"n","resourceVersion":"7"}}`. -/
def versionedPayload : String :=
  "\x7b\"kind\":\"Foo\",\"metadata\":\x7b\"name\":\"n\",\"resourceVersion\":\"7\"\x7d\x7d"

/-- The payload `{"kind":"Foo","metadata":{"name":"n","labels":{"x":1}}}`. -/
def badLabelPayload : String :=
  "\x7b\"kind\":\"Foo\",\"metadata\":\x7b\"name\":\"n\",\"labels\":\x7b\"x\":1\x7d\x7d\x7d"

/-- The payload `{"kind":"Foo"}`, which has no metadata. -/
def kindOnlyPayload : String := "\x7b\"kind\":\"Foo\"\x7d"

/-- An entity whose only non-zero field is the raw body `body`. -/
def entityWithBody (body : String) : ThirdPartyResourceData :=
  { ThirdPartyResourceData.empty with Data := body }


/-- The canonical mapping of the synthetic type held by `sampleMapper`. -/
def sampleMapping : RESTMapping Delegate :=
  { Resource := "thirdpartyresourcedatas", APIVersion := "v1", Kind := "ThirdPartyResourceData",
    Scope := "namespace", Codec := rejectingDelegate }

/-- A wrapped mapper that knows the synthetic type at version `v1` only. -/
def sampleMapper : RESTMapper :=
  { RESTMapping := fun kind versions =>
      if kind = "ThirdPartyResourceData" ∧ versions = ["v1"] then Except.ok sampleMapping
      else Except.error (Err.external "no mapping") }

/-- The overlay of the binding with kind `Foo` and version `v1alpha1`. -/
def fooMapper : thirdPartyResourceDataMapper := NewMapper sampleMapper "Foo" "v1alpha1"

/-- The overlay of a binding whose kind is the synthetic kind name itself. -/
def syntheticMapper : thirdPartyResourceDataMapper :=
  NewMapper sampleMapper "ThirdPartyResourceData" "v1alpha1"

/-- The payload `{"kind":"ThirdPartyResourceData","metadata":{"name":"n","labels":5}}`. -/
def numericLabelsPayload : String :=
  "\x7b\"kind\":\"ThirdPartyResourceData\",\"metadata\":\x7b\"name\":\"n\",\"labels\":5\x7d\x7d"

/-- The payload `{"metadata":{"name":"n"}}`, which has no kind. -/
def kindlessPayload : String := "\x7b\"metadata\":\x7b\"name\":\"n\"\x7d\x7d"

/-- The payload `{"kind":"Foo","apiVersion":"v2","metadata":{"name":"n"}}`. -/
def otherVersionPayload : String :=
  "\x7b\"kind\":\"Foo\",\"apiVersion\":\"v2\",\"metadata\":\x7b\"name\":\"n\"\x7d\x7d"

/-- A fallback creator that answers every request with an object named after it. -/
def fallbackCreater : ObjectCreater :=
  { New := fun version kind => Except.ok (Object.other (version ++ "/" ++ kind)) }

/-- The object creator of a binding with version `v1alpha1`. -/
def fooCreator : thirdPartyResourceDataCreator := NewObjectCreator "v1alpha1" fallbackCreater

/-- A delegate codec that encodes a status object as its message. -/
def messageDelegate : Delegate :=
  { Encode := fun obj =>
      match obj with
      | Object.status s => Except.ok s.Message
      | _ => Except.error (Err.external "not a status"),
    DecodeToVersion := fun _ _ => Except.error (Err.external "no delegate") }

/-! ## Auxiliary facts about the decoding steps -/

theorem asString_eq_some {x : Option JSON} {s : String} :
    asString x = some s ↔ x = some (JSON.str s) := by
  unfold asString
  split <;> simp_all

theorem asMap_eq_some {x : Option JSON} {m : GoMap JSON} :
    asMap x = some m ↔ x = some (JSON.obj m) := by
  unfold asMap
  split <;> simp_all

/-- The `resourceVersion` block either fails and leaves the target as it was, or succeeds
and changes at most `ResourceVersion`. -/
theorem populateResourceVersion_cases (objIn : ThirdPartyResourceData) (metadata : GoMap JSON) :
    (∃ s, mapGet metadata "resourceVersion" = some (JSON.str s) ∧
        populateResourceVersion objIn metadata = ({ objIn with ResourceVersion := s }, none)) ∨
    (mapGet metadata "resourceVersion" = none ∧
        populateResourceVersion objIn metadata = (objIn, none)) ∨
    ((∃ v, mapGet metadata "resourceVersion" = some v ∧ ∀ s, v ≠ JSON.str s) ∧
        populateResourceVersion objIn metadata =
          (objIn, some Err.unexpectedObjectForResourceVersion)) := by
  unfold populateResourceVersion
  cases h : mapGet metadata "resourceVersion" with
  | none => simp
  | some v => cases v <;> simp

/-- The label loop never touches `Name`, `Namespace`, `ResourceVersion` or `Data`. -/
theorem populateLabels_frame (labelMap : GoMap JSON) (objIn : ThirdPartyResourceData) :
    (populateLabels objIn labelMap).1.Name = objIn.Name ∧
    (populateLabels objIn labelMap).1.Namespace = objIn.Namespace ∧
    (populateLabels objIn labelMap).1.ResourceVersion = objIn.ResourceVersion ∧
    (populateLabels objIn labelMap).1.Data = objIn.Data := by
  induction labelMap generalizing objIn with
  | nil => simp [populateLabels]
  | cons kv rest ih =>
    obtain ⟨key, value⟩ := kv
    cases value <;> simp [populateLabels]
    exact ih _

/-- The `labels` block never touches `Name`, `Namespace`, `ResourceVersion` or `Data`. -/
theorem populateLabelsBlock_frame (metadata : GoMap JSON) (objIn : ThirdPartyResourceData) :
    (populateLabelsBlock objIn metadata).1.Name = objIn.Name ∧
    (populateLabelsBlock objIn metadata).1.Namespace = objIn.Namespace ∧
    (populateLabelsBlock objIn metadata).1.ResourceVersion = objIn.ResourceVersion ∧
    (populateLabelsBlock objIn metadata).1.Data = objIn.Data := by
  unfold populateLabelsBlock
  cases h : mapGet metadata "labels" with
  | none => simp
  | some v =>
    cases v <;> simp
    exact populateLabels_frame _ _

/-- Success of `populateFromObject`, step by step. -/
theorem populateFromObject_ok {t : thirdPartyResourceDataCodec}
    {objIn o : ThirdPartyResourceData} {mapObj : GoMap JSON} {data : String} :
    populateFromObject t objIn mapObj data = (o, none) ↔
      ∃ metadata name o1 o2,
        mapGet mapObj "kind" = some (JSON.str t.kind) ∧
        mapGet mapObj "metadata" = some (JSON.obj metadata) ∧
        populateResourceVersion objIn metadata = (o1, none) ∧
        mapGet metadata "name" = some (JSON.str name) ∧
        populateLabelsBlock o1 metadata = (o2, none) ∧
        o = { o2 with Name := name, Data := data } := by
  unfold populateFromObject
  constructor
  · intro h
    split at h
    · simp at h
    · rename_i kind hkind
      rw [asString_eq_some] at hkind
      split at h
      · simp at h
      · rename_i hk
        simp at hk
        subst hk
        split at h
        · simp at h
        · rename_i metadata hmd
          rw [asMap_eq_some] at hmd
          split at h
          · simp at h
          · rename_i o1 hrv
            split at h
            · simp at h
            · rename_i name hname
              rw [asString_eq_some] at hname
              split at h
              · simp at h
              · rename_i o2 hl
                simp at h
                exact ⟨metadata, name, _, o2, hkind, hmd, hrv, hname, hl, h.symm⟩
  · rintro ⟨metadata, name, o1, o2, hkind, hmd, hrv, hname, hl, rfl⟩
    simp [hkind, hmd, hrv, hname, hl, asString, asMap]

/-- Success of `populate`: the bytes parse to an object on which `populateFromObject`
succeeds. -/
theorem populate_ok {unmarshal : Unmarshal} {t : thirdPartyResourceDataCodec}
    {objIn o : ThirdPartyResourceData} {data : String} :
    populate unmarshal t objIn data = (o, none) ↔
      ∃ mapObj, unmarshal data = Except.ok (JSON.obj mapObj) ∧
        populateFromObject t objIn mapObj data = (o, none) := by
  unfold populate
  cases h : unmarshal data with
  | error e => simp
  | ok v => cases v <;> simp

/-- A successful `populate` stores the input bytes in `Data`. -/
theorem populate_ok_data {unmarshal : Unmarshal} {t : thirdPartyResourceDataCodec}
    {objIn o : ThirdPartyResourceData} {data : String}
    (h : populate unmarshal t objIn data = (o, none)) : o.Data = data := by
  obtain ⟨mapObj, -, h⟩ := populate_ok.mp h
  obtain ⟨metadata, name, o1, o2, -, -, -, -, -, rfl⟩ := populateFromObject_ok.mp h
  rfl

/-- The result of `Decode` in terms of `populate` on the zero value. -/
theorem Decode_eq_ok {unmarshal : Unmarshal} {t : thirdPartyResourceDataCodec}
    {data : String} {obj : Object} :
    Decode unmarshal t data = Except.ok obj ↔
      ∃ o, obj = Object.thirdPartyResourceData o ∧
        populate unmarshal t ThirdPartyResourceData.empty data = (o, none) := by
  unfold Decode
  split
  · rename_i o e h
    simp [h]
  · rename_i o h
    simp [h]
    constructor
    · intro h'; exact h'.symm
    · intro h'; exact h'.symm

/-! ## Round trip -/

/-- C1. Round trip: whenever `Decode` succeeds on the bytes `b`, `Encode` of the decoded
object succeeds and returns exactly `b`; this holds for every binding kind, every delegate
and every parser. -/
theorem Encode_Decode_roundtrip (unmarshal : Unmarshal) (t : thirdPartyResourceDataCodec)
    (b : String) (obj : Object) (h : Decode unmarshal t b = Except.ok obj) :
    Encode t obj = Except.ok b := by
  obtain ⟨o, rfl, hp⟩ := Decode_eq_ok.mp h
  simp [Encode, populate_ok_data hp]


theorem mapGet_mapSet {α : Type} (m : GoMap α) (k k' : String) (v : α) :
    mapGet (mapSet m k v) k' = if k = k' then some v else mapGet m k' := by
  induction m with
  | nil => simp [mapSet, mapGet]
  | cons kv rest ih =>
    obtain ⟨k0, v0⟩ := kv
    by_cases h0 : k0 = k
    · subst h0
      by_cases h1 : k0 = k' <;> simp [mapSet, mapGet, h1]
    · by_cases h1 : k0 = k'
      · subst h1
        have : ¬ k = k0 := fun h => h0 h.symm
        simp [mapSet, mapGet, h0, this]
      · simp [mapSet, mapGet, h0, h1, ih]

theorem mapGet_eq_none_of_not_mem {α : Type} (m : GoMap α) (k : String)
    (h : k ∉ mapKeys m) : mapGet m k = none := by
  induction m with
  | nil => rfl
  | cons kv rest ih =>
    obtain ⟨k0, v0⟩ := kv
    simp [mapKeys] at h
    have h0 : ¬ k0 = k := fun e => h.1 e.symm
    simp only [mapGet, h0, if_false]
    apply ih
    simpa [mapKeys] using h.2

/-- Every value found by a lookup is the value of an entry of the map. -/
theorem mem_of_mapGet {α : Type} (m : GoMap α) (k : String) (v : α)
    (h : mapGet m k = some v) : (k, v) ∈ m := by
  induction m with
  | nil => simp [mapGet] at h
  | cons kv rest ih =>
    obtain ⟨k0, v0⟩ := kv
    by_cases h0 : k0 = k
    · simp [mapGet, h0] at h
      simp [h0, h]
    · simp [mapGet, h0] at h
      simp [ih h]

/-- An error of the label loop is always `unexpectedLabel`. -/
theorem populateLabels_err (labelMap : GoMap JSON) (objIn o : ThirdPartyResourceData)
    (e : Err) (h : populateLabels objIn labelMap = (o, some e)) : e = Err.unexpectedLabel := by
  induction labelMap generalizing objIn with
  | nil => simp [populateLabels] at h
  | cons kv rest ih =>
    obtain ⟨key, value⟩ := kv
    cases value <;> simp [populateLabels] at h <;> first | exact h.2.symm | exact ih _ h

/-- The label loop succeeds exactly when every value is a string. -/
theorem populateLabels_ok_iff (labelMap : GoMap JSON) (objIn : ThirdPartyResourceData) :
    (populateLabels objIn labelMap).2 = none ↔ ∀ kv ∈ labelMap, ∃ s, kv.2 = JSON.str s := by
  induction labelMap generalizing objIn with
  | nil => simp [populateLabels]
  | cons kv rest ih =>
    obtain ⟨key, value⟩ := kv
    cases value <;> simp [populateLabels, ih]

/-- After a successful label loop over a map with distinct keys, a key of the map is bound
to the string of the payload, and every other key is bound as before. -/
theorem populateLabels_lookup (labelMap : GoMap JSON) (objIn o : ThirdPartyResourceData)
    (hnodup : (mapKeys labelMap).Nodup) (h : populateLabels objIn labelMap = (o, none))
    (key : String) :
    labelOf o key =
      match mapGet labelMap key with
      | some v => asString (some v)
      | none => labelOf objIn key := by
  induction labelMap generalizing objIn with
  | nil =>
    simp [populateLabels] at h
    simp [mapGet, h]
  | cons kv rest ih =>
    obtain ⟨k, value⟩ := kv
    simp only [mapKeys, List.map_cons, List.nodup_cons] at hnodup
    cases value with
    | str s =>
      simp only [populateLabels] at h
      rw [ih _ hnodup.2 h]
      by_cases hk : k = key
      · subst hk
        rw [mapGet_eq_none_of_not_mem rest k hnodup.1]
        simp [mapGet, labelOf, mapGet_mapSet, asString]
      · simp [mapGet, hk, labelOf, mapGet_mapSet]
        cases mapGet rest key with
        | some v => rfl
        | none =>
          cases objIn.Labels <;> simp [mapGet]
    | null => simp [populateLabels] at h
    | bool b => simp [populateLabels] at h
    | number n => simp [populateLabels] at h
    | arr xs => simp [populateLabels] at h
    | obj m => simp [populateLabels] at h

/-- The outcomes of the `labels` block. -/
theorem populateLabelsBlock_cases (objIn : ThirdPartyResourceData) (metadata : GoMap JSON) :
    (mapGet metadata "labels" = none ∧ populateLabelsBlock objIn metadata = (objIn, none)) ∨
    (∃ labelMap, mapGet metadata "labels" = some (JSON.obj labelMap) ∧
        populateLabelsBlock objIn metadata = populateLabels objIn labelMap) ∨
    ((∃ v, mapGet metadata "labels" = some v ∧ ∀ m, v ≠ JSON.obj m) ∧
        populateLabelsBlock objIn metadata = (objIn, some Err.unexpectedObjectForLabels)) := by
  unfold populateLabelsBlock
  cases h : mapGet metadata "labels" with
  | none => simp
  | some v => cases v <;> simp

/-- The outcome of `populateFromObject` once `kind` and `metadata` have passed their
checks: the three remaining blocks in sequence. -/
theorem populateFromObject_of_metadata {t : thirdPartyResourceDataCodec}
    {objIn : ThirdPartyResourceData} {mapObj metadata : GoMap JSON} {data : String}
    (hkind : mapGet mapObj "kind" = some (JSON.str t.kind))
    (hmeta : mapGet mapObj "metadata" = some (JSON.obj metadata)) :
    populateFromObject t objIn mapObj data =
      match populateResourceVersion objIn metadata with
      | (objIn, some err) => (objIn, some err)
      | (objIn, none) =>
        match asString (mapGet metadata "name") with
        | none => (objIn, some Err.unexpectedObjectForName)
        | some name =>
          match populateLabelsBlock objIn metadata with
          | (objIn, some err) => (objIn, some err)
          | (objIn, none) => ({ objIn with Name := name, Data := data }, none) := by
  simp [populateFromObject, hkind, hmeta, asString, asMap]

/-- What a failing `populateFromObject` leaves of the target: `Name`, `Namespace` and
`Data` always; `Labels` unless a label value was rejected; `ResourceVersion` unless the
failure came after the `resourceVersion` block. -/
theorem populateFromObject_err {t : thirdPartyResourceDataCodec}
    {objIn o : ThirdPartyResourceData} {mapObj : GoMap JSON} {data : String} {e : Err}
    (h : populateFromObject t objIn mapObj data = (o, some e)) :
    o.Name = objIn.Name ∧ o.Namespace = objIn.Namespace ∧ o.Data = objIn.Data ∧
    (e ≠ Err.unexpectedLabel → o.Labels = objIn.Labels) ∧
    (e ≠ Err.unexpectedObjectForName → e ≠ Err.unexpectedObjectForLabels →
      e ≠ Err.unexpectedLabel → o = objIn) := by
  unfold populateFromObject at h
  split at h
  · simp at h; obtain ⟨rfl, rfl⟩ := h; simp
  · split at h
    · simp at h; obtain ⟨rfl, rfl⟩ := h; simp
    · split at h
      · simp at h; obtain ⟨rfl, rfl⟩ := h; simp
      · rename_i metadata hmd
        rcases populateResourceVersion_cases objIn metadata with
          ⟨s, -, hrv⟩ | ⟨-, hrv⟩ | ⟨-, hrv⟩
        all_goals
          rw [hrv] at h
          simp only at h
        · split at h
          · simp at h; obtain ⟨rfl, rfl⟩ := h; simp
          · rcases populateLabelsBlock_cases { objIn with ResourceVersion := s } metadata with
              ⟨-, hl⟩ | ⟨labelMap, -, hl⟩ | ⟨-, hl⟩
            · rw [hl] at h; simp at h
            · rw [hl] at h
              have hfr := populateLabels_frame labelMap { objIn with ResourceVersion := s }
              split at h
              · rename_i o' e' heq
                simp at h
                obtain ⟨rfl, rfl⟩ := h
                rw [heq] at hfr
                have := populateLabels_err _ _ _ _ heq
                subst this
                simp at hfr
                simp [hfr]
              · simp at h
            · rw [hl] at h; simp at h; obtain ⟨rfl, rfl⟩ := h; simp
        · split at h
          · simp at h; obtain ⟨rfl, rfl⟩ := h; simp
          · rcases populateLabelsBlock_cases objIn metadata with
              ⟨-, hl⟩ | ⟨labelMap, -, hl⟩ | ⟨-, hl⟩
            · rw [hl] at h; simp at h
            · rw [hl] at h
              have hfr := populateLabels_frame labelMap objIn
              split at h
              · rename_i o' e' heq
                simp at h
                obtain ⟨rfl, rfl⟩ := h
                rw [heq] at hfr
                have := populateLabels_err _ _ _ _ heq
                subst this
                simp at hfr
                simp [hfr]
              · simp at h
            · rw [hl] at h; simp at h; obtain ⟨rfl, rfl⟩ := h; simp
        · simp at h; obtain ⟨rfl, rfl⟩ := h; simp

/-- What a failing `populate` leaves of the target. -/
theorem populate_err {unmarshal : Unmarshal} {t : thirdPartyResourceDataCodec}
    {objIn o : ThirdPartyResourceData} {data : String} {e : Err}
    (h : populate unmarshal t objIn data = (o, some e)) :
    o.Name = objIn.Name ∧ o.Namespace = objIn.Namespace ∧ o.Data = objIn.Data ∧
    (e ≠ Err.unexpectedLabel → o.Labels = objIn.Labels) ∧
    (e ≠ Err.unexpectedObjectForName → e ≠ Err.unexpectedObjectForLabels →
      e ≠ Err.unexpectedLabel → o = objIn) := by
  unfold populate at h
  split at h
  · simp at h; obtain ⟨rfl, rfl⟩ := h; simp
  · split at h
    · exact populateFromObject_err h
    · simp at h; obtain ⟨rfl, rfl⟩ := h; simp


theorem Sprintf_template (a b : String) :
    Sprintf template [a, b] =
      "\x7b\n  \"kind\": \"" ++ a ++ "\",\n  \"items\": [ " ++ b ++ " ]\n\x7d" := by
  apply String.ext
  simp only [Sprintf, String.data_append]
  have ht : template.data = "\x7b\n  \"kind\": \"".data ++ ('%' :: 's' :: ("\",\n  \"items\": [ ".data ++ ('%' :: 's' :: " ]\n\x7d".data))) := by
    rfl
  rw [ht]
  simp [sprintfChars]


/-- The function `strings.Join` agrees with the library's `String.intercalate`. -/
theorem intercalate_go_eq_Join (sep : String) (rest : List String) (acc b : String) :
    String.intercalate.go acc sep (b :: rest) = acc ++ sep ++ Join (b :: rest) sep := by
  induction rest generalizing acc b with
  | nil => simp [String.intercalate.go, Join]
  | cons c r ih =>
    rw [String.intercalate.go, ih]
    simp [Join, String.append_assoc]

theorem Join_eq_intercalate (elems : List String) (sep : String) :
    Join elems sep = sep.intercalate elems := by
  cases elems with
  | nil => rfl
  | cons a rest =>
    cases rest with
    | nil => rfl
    | cons b r =>
      rw [String.intercalate, intercalate_go_eq_Join]
      simp [Join, String.append_assoc]

/-- The result of `Decode` on bytes that parse to a JSON object. -/
theorem Decode_of_parse {unmarshal : Unmarshal} {t : thirdPartyResourceDataCodec}
    {data : String} {mapObj : GoMap JSON}
    (hparse : unmarshal data = Except.ok (JSON.obj mapObj)) :
    Decode unmarshal t data =
      match populateFromObject t ThirdPartyResourceData.empty mapObj data with
      | (_, some err) => Except.error err
      | (result, none) => Except.ok (Object.thirdPartyResourceData result) := by
  simp [Decode, populate, hparse]

/-- The result of `Decode` in terms of `populate` on the zero value, failure case. -/
theorem Decode_eq_error {unmarshal : Unmarshal} {t : thirdPartyResourceDataCodec}
    {data : String} {e : Err} :
    Decode unmarshal t data = Except.error e ↔
      ∃ o, populate unmarshal t ThirdPartyResourceData.empty data = (o, some e) := by
  unfold Decode
  split
  · rename_i o e' h
    simp [h]
  · rename_i o h
    simp [h]

/-! ## Atomicity of decoding into a target -/

/-- C2 (amended). When `DecodeInto` or `DecodeIntoWithSpecifiedVersionKind` returns an error
on an entity target, the target is still an entity whose `Name`, `Namespace` and `Data` are
what they were before the call; its `Labels` are unchanged unless the error is the
rejection of a label value, and the whole target is unchanged unless the error is one of
the three raised after the `resourceVersion` block (name, labels object, label value). -/
theorem DecodeInto_failure_frame (unmarshal : Unmarshal) (t : thirdPartyResourceDataCodec)
    (data version kind : String) (target : ThirdPartyResourceData) (after : Object) (e : Err)
    (h : DecodeInto unmarshal t data (Object.thirdPartyResourceData target) = (after, some e) ∨
      DecodeIntoWithSpecifiedVersionKind unmarshal t data
        (Object.thirdPartyResourceData target) version kind = (after, some e)) :
    ∃ o, after = Object.thirdPartyResourceData o ∧
      o.Name = target.Name ∧ o.Namespace = target.Namespace ∧ o.Data = target.Data ∧
      (e ≠ Err.unexpectedLabel → o.Labels = target.Labels) ∧
      (e ≠ Err.unexpectedObjectForName → e ≠ Err.unexpectedObjectForLabels →
        e ≠ Err.unexpectedLabel → o = target) := by
  have key : ∀ o, populate unmarshal t target data = (o, some e) →
      after = Object.thirdPartyResourceData o →
      ∃ o, after = Object.thirdPartyResourceData o ∧
        o.Name = target.Name ∧ o.Namespace = target.Namespace ∧ o.Data = target.Data ∧
        (e ≠ Err.unexpectedLabel → o.Labels = target.Labels) ∧
        (e ≠ Err.unexpectedObjectForName → e ≠ Err.unexpectedObjectForLabels →
          e ≠ Err.unexpectedLabel → o = target) :=
    fun o hp ha => ⟨o, ha, populate_err hp⟩
  have same : ∀ e', (Object.thirdPartyResourceData target, some e') = (after, some e) →
      ∃ o, after = Object.thirdPartyResourceData o ∧
        o.Name = target.Name ∧ o.Namespace = target.Namespace ∧ o.Data = target.Data ∧
        (e ≠ Err.unexpectedLabel → o.Labels = target.Labels) ∧
        (e ≠ Err.unexpectedObjectForName → e ≠ Err.unexpectedObjectForLabels →
          e ≠ Err.unexpectedLabel → o = target) := by
    intro e' h'
    simp only [Prod.mk.injEq] at h'
    exact ⟨target, h'.1.symm, rfl, rfl, rfl, fun _ => rfl, fun _ _ _ => rfl⟩
  rcases h with h | h
  · simp only [DecodeInto] at h
    cases hp : populate unmarshal t target data with
    | mk o err =>
      rw [hp] at h
      simp only [Prod.mk.injEq] at h
      obtain ⟨h1, h2⟩ := h
      subst h2
      exact key o hp h1.symm
  · simp only [DecodeIntoWithSpecifiedVersionKind] at h
    split at h
    · exact same _ h
    · split at h
      · exact same _ h
      · split at h
        · split at h
          · exact same _ h
          · split at h
            · exact same _ h
            · cases hp : populate unmarshal t target data with
              | mk o err =>
                rw [hp] at h
                simp only [Prod.mk.injEq] at h
                obtain ⟨h1, h2⟩ := h
                subst h2
                exact key o hp h1.symm
        · exact same _ h

/-- C2 (witness). The amended frame property at the payload without a name. -/
theorem DecodeInto_failure_frame_witness :
    ∃ o, Object.thirdPartyResourceData
          { ThirdPartyResourceData.empty with ResourceVersion := "5" } =
        Object.thirdPartyResourceData o ∧
      o.Name = ThirdPartyResourceData.empty.Name ∧
      o.Namespace = ThirdPartyResourceData.empty.Namespace ∧
      o.Data = ThirdPartyResourceData.empty.Data ∧
      (Err.unexpectedObjectForName ≠ Err.unexpectedLabel →
        o.Labels = ThirdPartyResourceData.empty.Labels) ∧
      (Err.unexpectedObjectForName ≠ Err.unexpectedObjectForName →
        Err.unexpectedObjectForName ≠ Err.unexpectedObjectForLabels →
        Err.unexpectedObjectForName ≠ Err.unexpectedLabel →
        o = ThirdPartyResourceData.empty) :=
  DecodeInto_failure_frame jsonUnmarshal fooCodec namelessPayload "v1" "ThirdPartyResourceData"
    ThirdPartyResourceData.empty
    (Object.thirdPartyResourceData { ThirdPartyResourceData.empty with ResourceVersion := "5" })
    Err.unexpectedObjectForName (Or.inl rfl)

/-- C2 (counterexample). On the payload `{"kind":"Foo","metadata":{"resourceVersion":"5"}}`
and a zero-valued target, both `DecodeInto` and `DecodeIntoWithSpecifiedVersionKind` of the
codec bound to `Foo` return an error and leave `ResourceVersion = "5"` in the target, which
therefore differs from the target before the call. -/
theorem DecodeInto_mutates_on_error :
    DecodeInto jsonUnmarshal fooCodec namelessPayload
        (Object.thirdPartyResourceData ThirdPartyResourceData.empty) =
      (Object.thirdPartyResourceData { ThirdPartyResourceData.empty with ResourceVersion := "5" },
        some Err.unexpectedObjectForName) ∧
    DecodeIntoWithSpecifiedVersionKind jsonUnmarshal fooCodec namelessPayload
        (Object.thirdPartyResourceData ThirdPartyResourceData.empty) "v1"
        "ThirdPartyResourceData" =
      (Object.thirdPartyResourceData { ThirdPartyResourceData.empty with ResourceVersion := "5" },
        some Err.unexpectedObjectForName) ∧
    Object.thirdPartyResourceData { ThirdPartyResourceData.empty with ResourceVersion := "5" } ≠
      Object.thirdPartyResourceData ThirdPartyResourceData.empty :=
  ⟨rfl, rfl, by decide⟩

/-! ## List encoding -/

/-- C3 (amended). For every binding kind `K` and every list, `Encode` returns exactly the
four-line text of the constant `template` with `K` followed by `List` and the comma-joined
raw bodies substituted: an opening brace, a line break, two spaces, `"kind": "KList",`, a
line break, two spaces, `"items": [ b0,...,bn ]`, a line break, a closing brace. -/
theorem Encode_list_wire_format (t : thirdPartyResourceDataCodec)
    (list : ThirdPartyResourceDataList) :
    Encode t (Object.thirdPartyResourceDataList list) =
      Except.ok ("\x7b\n  \"kind\": \"" ++ t.kind ++ "List\",\n  \"items\": [ " ++
        ",".intercalate (list.Items.map (fun item => item.Data)) ++ " ]\n\x7d") := by
  simp only [Encode, Sprintf_template, Join_eq_intercalate]
  congr 1
  apply String.ext
  simp [String.data_append]

/-- C3 (counterexample). The codec bound to `Foo` encodes the list of two items with bodies
`a` and `b` as four lines, which is not the single-line text
`{"kind": "FooList", "items": [ a,b ]}`. -/
theorem Encode_list_not_single_line :
    Encode fooCodec (Object.thirdPartyResourceDataList
        { Items := [entityWithBody "a", entityWithBody "b"] }) =
      Except.ok "\x7b\n  \"kind\": \"FooList\",\n  \"items\": [ a,b ]\n\x7d" ∧
    Encode fooCodec (Object.thirdPartyResourceDataList
        { Items := [entityWithBody "a", entityWithBody "b"] }) ≠
      Except.ok "\x7b\"kind\": \"FooList\", \"items\": [ a,b ]\x7d" := by
  have h : Encode fooCodec (Object.thirdPartyResourceDataList
        { Items := [entityWithBody "a", entityWithBody "b"] }) =
      Except.ok "\x7b\n  \"kind\": \"FooList\",\n  \"items\": [ a,b ]\n\x7d" := rfl
  refine ⟨h, ?_⟩
  rw [h]
  intro hc
  injection hc with hc
  revert hc
  decide


/-- C1 (witness). The payload `{"kind":"Foo","metadata":{"name":"bar","labels":{"x":"y"}}}`
decodes under the binding `Foo`, and encoding the result gives the payload back. -/
theorem Encode_Decode_roundtrip_witness :
    Decode jsonUnmarshal fooCodec fooBarPayload =
      Except.ok (Object.thirdPartyResourceData
        { Name := "bar", Namespace := "", Labels := some [("x", "y")], ResourceVersion := "",
          Data := fooBarPayload }) ∧
    Encode fooCodec (Object.thirdPartyResourceData
        { Name := "bar", Namespace := "", Labels := some [("x", "y")], ResourceVersion := "",
          Data := fooBarPayload }) = Except.ok fooBarPayload :=
  ⟨rfl, Encode_Decode_roundtrip jsonUnmarshal fooCodec fooBarPayload _ rfl⟩


/-! ## Validation of the envelope fields -/

/-- C4. Kind identity is enforced on decode.  For an input that parses to a JSON object,
`Decode` of a codec bound to kind `K` fails when the `kind` entry is absent, fails when it
is not a string, and fails when it is a string different from `K`; hence a payload accepted
by the codec is rejected by every codec bound to a different kind. -/
theorem Decode_kind_enforced (unmarshal : Unmarshal) (t : thirdPartyResourceDataCodec)
    (data : String) (mapObj : GoMap JSON)
    (hparse : unmarshal data = Except.ok (JSON.obj mapObj)) :
    (mapGet mapObj "kind" = none →
      Decode unmarshal t data = Except.error Err.unexpectedObjectForKind) ∧
    (∀ v, mapGet mapObj "kind" = some v → (∀ s, v ≠ JSON.str s) →
      Decode unmarshal t data = Except.error Err.unexpectedObjectForKind) ∧
    (∀ s, mapGet mapObj "kind" = some (JSON.str s) → s ≠ t.kind →
      Decode unmarshal t data = Except.error (Err.unexpectedKind s t.kind)) ∧
    (∀ (t2 : thirdPartyResourceDataCodec) (obj : Object), t2.kind ≠ t.kind →
      Decode unmarshal t data = Except.ok obj →
      ∃ e, Decode unmarshal t2 data = Except.error e) := by
  refine ⟨?_, ?_, ?_, ?_⟩
  · intro h
    simp [Decode_of_parse hparse, populateFromObject, h, asString]
  · intro v h hv
    cases v with
    | str s => exact absurd rfl (hv s)
    | null => simp [Decode_of_parse hparse, populateFromObject, h, asString]
    | bool b => simp [Decode_of_parse hparse, populateFromObject, h, asString]
    | number n => simp [Decode_of_parse hparse, populateFromObject, h, asString]
    | arr xs => simp [Decode_of_parse hparse, populateFromObject, h, asString]
    | obj m => simp [Decode_of_parse hparse, populateFromObject, h, asString]
  · intro s h hs
    simp [Decode_of_parse hparse, populateFromObject, h, asString, hs]
  · intro t2 obj hne hok
    obtain ⟨o, -, hp⟩ := Decode_eq_ok.mp hok
    obtain ⟨m, hm, hpo⟩ := populate_ok.mp hp
    rw [hparse] at hm
    simp only [Except.ok.injEq, JSON.obj.injEq] at hm
    subst hm
    obtain ⟨_, _, _, _, hkind, -⟩ := populateFromObject_ok.mp hpo
    have hne2 : ¬ t.kind = t2.kind := fun h => hne h.symm
    exact ⟨Err.unexpectedKind t.kind t2.kind, by
      simp [Decode_of_parse hparse, populateFromObject, hkind, asString, hne2]⟩

/-- C4 (witness). The payload of kind `Foo` is rejected by the codec bound to `Bar`. -/
theorem Decode_kind_enforced_witness :
    Decode jsonUnmarshal barCodec minimalPayload =
      Except.error (Err.unexpectedKind "Foo" barCodec.kind) :=
  (Decode_kind_enforced jsonUnmarshal barCodec minimalPayload
    [("kind", JSON.str "Foo"), ("metadata", JSON.obj [("name", JSON.str "n")])] rfl).2.2.1
    "Foo" rfl (by decide)

/-- C5. Minimal payload decodes.  For every binding kind `K` and name `n`, an input that
parses to a JSON object whose `kind` is `K` and whose `metadata` is an object with `name`
equal to `n` and neither `resourceVersion` nor `labels` is decoded by `Decode` into the
entity with `Name = n`, no labels, empty `ResourceVersion` and `Data` equal to the input
bytes; the object `{kind: K, metadata: {name: n}}` is such an object. -/
theorem Decode_minimal (unmarshal : Unmarshal) (t : thirdPartyResourceDataCodec)
    (data n : String) (mapObj metadata : GoMap JSON)
    (hparse : unmarshal data = Except.ok (JSON.obj mapObj))
    (hkind : mapGet mapObj "kind" = some (JSON.str t.kind))
    (hmeta : mapGet mapObj "metadata" = some (JSON.obj metadata))
    (hname : mapGet metadata "name" = some (JSON.str n))
    (hrv : mapGet metadata "resourceVersion" = none)
    (hlabels : mapGet metadata "labels" = none) :
    Decode unmarshal t data =
      Except.ok (Object.thirdPartyResourceData
        { Name := n, Namespace := "", Labels := none, ResourceVersion := "", Data := data }) := by
  simp [Decode_of_parse hparse, populateFromObject_of_metadata hkind hmeta,
    populateResourceVersion, populateLabelsBlock, hname, hrv, hlabels, asString,
    ThirdPartyResourceData.empty]

/-- C5 (witness). The bytes `{"kind":"Foo","metadata":{"name":"n"}}` under the binding
`Foo`. -/
theorem Decode_minimal_witness :
    jsonUnmarshal minimalPayload =
      Except.ok (JSON.obj
        [("kind", JSON.str "Foo"), ("metadata", JSON.obj [("name", JSON.str "n")])]) ∧
    Decode jsonUnmarshal fooCodec minimalPayload =
      Except.ok (Object.thirdPartyResourceData
        { Name := "n", Namespace := "", Labels := none, ResourceVersion := "",
          Data := minimalPayload }) :=
  ⟨rfl, Decode_minimal jsonUnmarshal fooCodec minimalPayload "n"
    [("kind", JSON.str "Foo"), ("metadata", JSON.obj [("name", JSON.str "n")])]
    [("name", JSON.str "n")] rfl rfl rfl rfl rfl rfl⟩


/-- The type assertion to `string` fails on an absent entry and on a non-string value. -/
theorem asString_eq_none {x : Option JSON}
    (h : x = none ∨ ∃ v, x = some v ∧ ∀ s, v ≠ JSON.str s) : asString x = none := by
  rcases h with h | ⟨v, h, hv⟩
  · simp [h, asString]
  · subst h
    cases v with
    | str s => exact absurd rfl (hv s)
    | null => rfl
    | bool b => rfl
    | number n => rfl
    | arr xs => rfl
    | obj m => rfl

/-- The type assertion to a map fails on an absent entry and on a non-object value. -/
theorem asMap_eq_none {x : Option JSON}
    (h : x = none ∨ ∃ v, x = some v ∧ ∀ m, v ≠ JSON.obj m) : asMap x = none := by
  rcases h with h | ⟨v, h, hv⟩
  · simp [h, asMap]
  · subst h
    cases v with
    | obj m => exact absurd rfl (hv m)
    | null => rfl
    | bool b => rfl
    | number n => rfl
    | arr xs => rfl
    | str s => rfl

/-- C6. Labels are lifted exactly.  When `Decode` succeeds on an input whose metadata has a
`labels` object (a Go map, so with distinct keys), every value of that object is a string
and, for every key, the entity's label under the key is the payload's value under the key:
present with the same string, or absent in both. -/
theorem Decode_labels_exact (unmarshal : Unmarshal) (t : thirdPartyResourceDataCodec)
    (data : String) (o : ThirdPartyResourceData) (mapObj metadata labelMap : GoMap JSON)
    (hdec : Decode unmarshal t data = Except.ok (Object.thirdPartyResourceData o))
    (hparse : unmarshal data = Except.ok (JSON.obj mapObj))
    (hmeta : mapGet mapObj "metadata" = some (JSON.obj metadata))
    (hlabels : mapGet metadata "labels" = some (JSON.obj labelMap))
    (hnodup : (mapKeys labelMap).Nodup) :
    ∀ key, labelOf o key = asString (mapGet labelMap key) ∧
      ∀ v, mapGet labelMap key = some v → ∃ s, v = JSON.str s := by
  obtain ⟨o', ho', hp⟩ := Decode_eq_ok.mp hdec
  simp only [Object.thirdPartyResourceData.injEq] at ho'
  subst ho'
  obtain ⟨m, hm, hpo⟩ := populate_ok.mp hp
  rw [hparse] at hm
  simp only [Except.ok.injEq, JSON.obj.injEq] at hm
  subst hm
  obtain ⟨md, name, o1, o2, -, hmd, hrv, -, hl, rfl⟩ := populateFromObject_ok.mp hpo
  rw [hmeta] at hmd
  simp only [Option.some.injEq, JSON.obj.injEq] at hmd
  subst hmd
  have hl' : populateLabels o1 labelMap = (o2, none) := by
    simpa [populateLabelsBlock, hlabels] using hl
  have ho1 : o1.Labels = none := by
    rcases populateResourceVersion_cases ThirdPartyResourceData.empty metadata with
      ⟨s, -, h⟩ | ⟨-, h⟩ | ⟨-, h⟩ <;> rw [h] at hrv <;> simp at hrv <;> subst hrv <;> rfl
  have hall : ∀ kv ∈ labelMap, ∃ s, kv.2 = JSON.str s := by
    apply (populateLabels_ok_iff labelMap o1).mp
    rw [hl']
  intro key
  have hlook := populateLabels_lookup labelMap o1 o2 hnodup hl' key
  constructor
  · show labelOf o2 key = _
    rw [hlook]
    cases hg : mapGet labelMap key with
    | some v => rfl
    | none => simp [labelOf, ho1, asString]
  · intro v hv
    exact hall (key, v) (mem_of_mapGet labelMap key v hv)

/-- C6 (witness). Binding `Foo` with the input
`{"kind":"Foo","metadata":{"name":"bar","labels":{"x":"y"}}}`: the decoded entity has name
`bar` and labels `{x: y}`, and its label under `x` is the payload's. -/
theorem Decode_labels_exact_witness :
    Decode jsonUnmarshal fooCodec fooBarPayload =
      Except.ok (Object.thirdPartyResourceData
        { Name := "bar", Namespace := "", Labels := some [("x", "y")], ResourceVersion := "",
          Data := fooBarPayload }) ∧
    labelOf { Name := "bar", Namespace := "", Labels := some [("x", "y")],
              ResourceVersion := "", Data := fooBarPayload } "x" =
      asString (mapGet [("x", JSON.str "y")] "x") :=
  ⟨rfl, (Decode_labels_exact jsonUnmarshal fooCodec fooBarPayload
    { Name := "bar", Namespace := "", Labels := some [("x", "y")], ResourceVersion := "",
      Data := fooBarPayload }
    [("kind", JSON.str "Foo"),
      ("metadata", JSON.obj [("name", JSON.str "bar"), ("labels", JSON.obj [("x", JSON.str "y")])])]
    [("name", JSON.str "bar"), ("labels", JSON.obj [("x", JSON.str "y")])]
    [("x", JSON.str "y")] rfl rfl rfl rfl (by decide) "x").1⟩

/-- C7. Label validation.  For an input whose `kind`, `metadata`, `name` and
`resourceVersion` are valid, `Decode` fails when `metadata.labels` is present and is not a
JSON object, and fails when it is an object with at least one value that is not a
string. -/
theorem Decode_label_validation (unmarshal : Unmarshal) (t : thirdPartyResourceDataCodec)
    (data n : String) (mapObj metadata : GoMap JSON)
    (hparse : unmarshal data = Except.ok (JSON.obj mapObj))
    (hkind : mapGet mapObj "kind" = some (JSON.str t.kind))
    (hmeta : mapGet mapObj "metadata" = some (JSON.obj metadata))
    (hname : mapGet metadata "name" = some (JSON.str n))
    (hrv : mapGet metadata "resourceVersion" = none ∨
      ∃ s, mapGet metadata "resourceVersion" = some (JSON.str s)) :
    (∀ v, mapGet metadata "labels" = some v → (∀ m, v ≠ JSON.obj m) →
      Decode unmarshal t data = Except.error Err.unexpectedObjectForLabels) ∧
    (∀ labelMap, mapGet metadata "labels" = some (JSON.obj labelMap) →
      (∃ kv ∈ labelMap, ∀ s, kv.2 ≠ JSON.str s) →
      Decode unmarshal t data = Except.error Err.unexpectedLabel) := by
  have hstep : ∃ o1, populateResourceVersion ThirdPartyResourceData.empty metadata =
      (o1, none) := by
    rcases populateResourceVersion_cases ThirdPartyResourceData.empty metadata with
      ⟨s, -, h⟩ | ⟨-, h⟩ | ⟨⟨v, hv, hns⟩, -⟩
    · exact ⟨_, h⟩
    · exact ⟨_, h⟩
    · rcases hrv with hrv | ⟨s, hrv⟩
      · rw [hrv] at hv; simp at hv
      · rw [hrv] at hv
        simp only [Option.some.injEq] at hv
        exact absurd hv.symm (hns s)
  obtain ⟨o1, ho1⟩ := hstep
  constructor
  · intro v hv hno
    have hb : populateLabelsBlock o1 metadata = (o1, some Err.unexpectedObjectForLabels) := by
      rcases populateLabelsBlock_cases o1 metadata with ⟨h, -⟩ | ⟨lm, h, -⟩ | ⟨-, h⟩
      · rw [hv] at h; simp at h
      · rw [hv] at h
        simp only [Option.some.injEq] at h
        exact absurd h (hno lm)
      · exact h
    simp [Decode_of_parse hparse, populateFromObject_of_metadata hkind hmeta, ho1, hname,
      asString, hb]
  · intro labelMap hl hbad
    have hb : populateLabelsBlock o1 metadata = populateLabels o1 labelMap := by
      simp [populateLabelsBlock, hl]
    have hfail : (populateLabels o1 labelMap).2 ≠ none := by
      intro hnone
      obtain ⟨kv, hmem, hns⟩ := hbad
      obtain ⟨s, hs⟩ := (populateLabels_ok_iff labelMap o1).mp hnone kv hmem
      exact hns s hs
    cases hres : populateLabels o1 labelMap with
    | mk o2 err =>
      cases err with
      | none => rw [hres] at hfail; exact absurd rfl hfail
      | some e =>
        have he := populateLabels_err _ _ _ _ hres
        subst he
        simp [Decode_of_parse hparse, populateFromObject_of_metadata hkind hmeta, ho1, hname,
          asString, hb, hres]

/-- C7 (witness). The payload `{"kind":"Foo","metadata":{"name":"n","labels":{"x":1}}}` is
rejected because the label `x` is a number. -/
theorem Decode_label_validation_witness :
    Decode jsonUnmarshal fooCodec badLabelPayload = Except.error Err.unexpectedLabel :=
  (Decode_label_validation jsonUnmarshal fooCodec badLabelPayload "n"
    [("kind", JSON.str "Foo"),
      ("metadata", JSON.obj [("name", JSON.str "n"), ("labels", JSON.obj [("x", JSON.number "1")])])]
    [("name", JSON.str "n"), ("labels", JSON.obj [("x", JSON.number "1")])]
    rfl rfl rfl rfl (Or.inl rfl)).2 [("x", JSON.number "1")] rfl
    ⟨("x", JSON.number "1"), by simp, by simp⟩

/-- C8. Required envelope fields.  For an input that parses to a JSON object with a matching
`kind`, `Decode` fails when the `metadata` entry is absent or is not a JSON object, and
fails when `metadata.name` is absent or is not a string. -/
theorem Decode_required_fields (unmarshal : Unmarshal) (t : thirdPartyResourceDataCodec)
    (data : String) (mapObj : GoMap JSON)
    (hparse : unmarshal data = Except.ok (JSON.obj mapObj))
    (hkind : mapGet mapObj "kind" = some (JSON.str t.kind)) :
    ((mapGet mapObj "metadata" = none ∨
        ∃ v, mapGet mapObj "metadata" = some v ∧ ∀ m, v ≠ JSON.obj m) →
      Decode unmarshal t data = Except.error Err.unexpectedObjectForMetadata) ∧
    (∀ metadata, mapGet mapObj "metadata" = some (JSON.obj metadata) →
      (mapGet metadata "name" = none ∨
        ∃ v, mapGet metadata "name" = some v ∧ ∀ s, v ≠ JSON.str s) →
      Decode unmarshal t data = Except.error Err.unexpectedObjectForResourceVersion ∨
      Decode unmarshal t data = Except.error Err.unexpectedObjectForName) := by
  constructor
  · intro h
    simp [Decode_of_parse hparse, populateFromObject, hkind, asString, asMap_eq_none h]
  · intro metadata hmeta hname
    rcases populateResourceVersion_cases ThirdPartyResourceData.empty metadata with
      ⟨s, -, h⟩ | ⟨-, h⟩ | ⟨-, h⟩
    · right
      simp [Decode_of_parse hparse, populateFromObject_of_metadata hkind hmeta, h,
        asString_eq_none hname]
    · right
      simp [Decode_of_parse hparse, populateFromObject_of_metadata hkind hmeta, h,
        asString_eq_none hname]
    · left
      simp [Decode_of_parse hparse, populateFromObject_of_metadata hkind hmeta, h]

/-- C8 (witness). The payload `{"kind":"Foo"}` has no metadata and is rejected. -/
theorem Decode_required_fields_witness :
    Decode jsonUnmarshal fooCodec kindOnlyPayload =
      Except.error Err.unexpectedObjectForMetadata :=
  (Decode_required_fields jsonUnmarshal fooCodec kindOnlyPayload
    [("kind", JSON.str "Foo")] rfl rfl).1 (Or.inl rfl)

/-- C9. The `resourceVersion` passes through.  For an input with valid `kind` and
`metadata`: when `metadata.resourceVersion` is present and not a string, `Decode` fails; when
it is present and a string and `Decode` succeeds, the entity's `ResourceVersion` is that
string; when it is absent and `Decode` succeeds, the entity's `ResourceVersion` is empty. -/
theorem Decode_resourceVersion (unmarshal : Unmarshal) (t : thirdPartyResourceDataCodec)
    (data : String) (mapObj metadata : GoMap JSON)
    (hparse : unmarshal data = Except.ok (JSON.obj mapObj))
    (hkind : mapGet mapObj "kind" = some (JSON.str t.kind))
    (hmeta : mapGet mapObj "metadata" = some (JSON.obj metadata)) :
    (∀ v, mapGet metadata "resourceVersion" = some v → (∀ s, v ≠ JSON.str s) →
      Decode unmarshal t data = Except.error Err.unexpectedObjectForResourceVersion) ∧
    (∀ s o, mapGet metadata "resourceVersion" = some (JSON.str s) →
      Decode unmarshal t data = Except.ok (Object.thirdPartyResourceData o) →
      o.ResourceVersion = s) ∧
    (∀ o, mapGet metadata "resourceVersion" = none →
      Decode unmarshal t data = Except.ok (Object.thirdPartyResourceData o) →
      o.ResourceVersion = "") := by
  have hok : ∀ o, Decode unmarshal t data = Except.ok (Object.thirdPartyResourceData o) →
      ∃ o1, populateResourceVersion ThirdPartyResourceData.empty metadata = (o1, none) ∧
        o.ResourceVersion = o1.ResourceVersion := by
    intro o hdec
    obtain ⟨o', ho', hp⟩ := Decode_eq_ok.mp hdec
    simp only [Object.thirdPartyResourceData.injEq] at ho'
    subst ho'
    obtain ⟨m, hm, hpo⟩ := populate_ok.mp hp
    rw [hparse] at hm
    simp only [Except.ok.injEq, JSON.obj.injEq] at hm
    subst hm
    obtain ⟨md, name, o1, o2, -, hmd, hrv, -, hl, rfl⟩ := populateFromObject_ok.mp hpo
    rw [hmeta] at hmd
    simp only [Option.some.injEq, JSON.obj.injEq] at hmd
    subst hmd
    refine ⟨o1, hrv, ?_⟩
    have := (populateLabelsBlock_frame metadata o1).2.2.1
    rw [hl] at this
    exact this
  refine ⟨?_, ?_, ?_⟩
  · intro v hv hns
    cases v with
    | str s => exact absurd rfl (hns s)
    | null =>
      simp [Decode_of_parse hparse, populateFromObject_of_metadata hkind hmeta,
        populateResourceVersion, hv]
    | bool b =>
      simp [Decode_of_parse hparse, populateFromObject_of_metadata hkind hmeta,
        populateResourceVersion, hv]
    | number n =>
      simp [Decode_of_parse hparse, populateFromObject_of_metadata hkind hmeta,
        populateResourceVersion, hv]
    | arr xs =>
      simp [Decode_of_parse hparse, populateFromObject_of_metadata hkind hmeta,
        populateResourceVersion, hv]
    | obj m =>
      simp [Decode_of_parse hparse, populateFromObject_of_metadata hkind hmeta,
        populateResourceVersion, hv]
  · intro s o hv hdec
    obtain ⟨o1, h1, h2⟩ := hok o hdec
    simp [populateResourceVersion, hv] at h1
    rw [h2, ← h1]
  · intro o hv hdec
    obtain ⟨o1, h1, h2⟩ := hok o hdec
    simp [populateResourceVersion, hv] at h1
    rw [h2, ← h1]
    rfl

/-- C9 (witness). The payload `{"kind":"Foo","metadata":{"name":"n","resourceVersion":"7"}}`
decodes to an entity with `ResourceVersion = "7"`. -/
theorem Decode_resourceVersion_witness :
    Decode jsonUnmarshal fooCodec versionedPayload =
      Except.ok (Object.thirdPartyResourceData
        { Name := "n", Namespace := "", Labels := none, ResourceVersion := "7",
          Data := versionedPayload }) ∧
    ThirdPartyResourceData.ResourceVersion
      { Name := "n", Namespace := "", Labels := none, ResourceVersion := "7",
        Data := versionedPayload } = "7" :=
  ⟨rfl, (Decode_resourceVersion jsonUnmarshal fooCodec versionedPayload
    [("kind", JSON.str "Foo"),
      ("metadata", JSON.obj [("name", JSON.str "n"), ("resourceVersion", JSON.str "7")])]
    [("name", JSON.str "n"), ("resourceVersion", JSON.str "7")] rfl rfl rfl).2.1 "7"
    { Name := "n", Namespace := "", Labels := none, ResourceVersion := "7",
      Data := versionedPayload } rfl rfl⟩

/-! ## DecodeInto and Decode -/

/-- C10. `DecodeInto` agrees with `Decode`.  On a fresh (zero-valued) entity target,
`DecodeInto` returns no error exactly when `Decode` succeeds, and then the target after the
call is the entity `Decode` returns; on a target that is not an entity, `DecodeInto` fails
whatever the bytes are. -/
theorem DecodeInto_agrees_Decode (unmarshal : Unmarshal) (t : thirdPartyResourceDataCodec)
    (data : String) :
    ((∃ obj, Decode unmarshal t data = Except.ok obj) ↔
      (DecodeInto unmarshal t data
        (Object.thirdPartyResourceData ThirdPartyResourceData.empty)).2 = none) ∧
    (∀ obj, Decode unmarshal t data = Except.ok obj →
      DecodeInto unmarshal t data
        (Object.thirdPartyResourceData ThirdPartyResourceData.empty) = (obj, none)) ∧
    (∀ target : Object, (∀ o, target ≠ Object.thirdPartyResourceData o) →
      ∃ e, (DecodeInto unmarshal t data target).2 = some e) := by
  refine ⟨?_, ?_, ?_⟩
  · simp only [Decode, DecodeInto]
    cases hp : populate unmarshal t ThirdPartyResourceData.empty data with
    | mk o err => cases err <;> simp
  · intro obj
    simp only [Decode, DecodeInto]
    cases hp : populate unmarshal t ThirdPartyResourceData.empty data with
    | mk o err => cases err <;> simp
  · intro target htarget
    cases target with
    | thirdPartyResourceData o => exact absurd rfl (htarget o)
    | thirdPartyResourceDataList l => exact ⟨_, rfl⟩
    | status s => exact ⟨_, rfl⟩
    | other n => exact ⟨_, rfl⟩

/-- C10 (witness). On the payload `{"kind":"Foo","metadata":{"name":"n"}}` the fresh target
of `DecodeInto` ends up equal to the entity `Decode` returns. -/
theorem DecodeInto_agrees_Decode_witness :
    DecodeInto jsonUnmarshal fooCodec minimalPayload
        (Object.thirdPartyResourceData ThirdPartyResourceData.empty) =
      (Object.thirdPartyResourceData
        { Name := "n", Namespace := "", Labels := none, ResourceVersion := "",
          Data := minimalPayload }, none) :=
  (DecodeInto_agrees_Decode jsonUnmarshal fooCodec minimalPayload).2.1 _ rfl

/-! ## REST mapping overlay -/

/-- The outcome of the overlay's `RESTMapping` once the version and kind checks have
passed: the wrapped mapper's answer with the codec replaced, or the wrapped mapper's
error. -/
theorem RESTMapping_of_checks (latestVersion : String) (t : thirdPartyResourceDataMapper) :
    t.RESTMapping latestVersion "ThirdPartyResourceData" [t.version] =
      match t.mapper.RESTMapping "ThirdPartyResourceData" [latestVersion] with
      | Except.error err => Except.error err
      | Except.ok mapping =>
        Except.ok
          { Resource := mapping.Resource, APIVersion := mapping.APIVersion,
            Kind := mapping.Kind, Scope := mapping.Scope,
            Codec := NewCodec mapping.Codec t.kind } := by
  simp [thirdPartyResourceDataMapper.RESTMapping]

/-- The label loop succeeds with some target when every value is a string. -/
theorem populateLabels_ok_of_strings (labelMap : GoMap JSON) (objIn : ThirdPartyResourceData)
    (h : ∀ kv ∈ labelMap, ∃ s, kv.2 = JSON.str s) :
    ∃ o, populateLabels objIn labelMap = (o, none) := by
  have h2 := (populateLabels_ok_iff labelMap objIn).mpr h
  cases hres : populateLabels objIn labelMap with
  | mk o err =>
    rw [hres] at h2
    simp only at h2
    subst h2
    exact ⟨o, rfl⟩

/-- The acceptance condition of `populateFromObject`: `kind` is the binding's kind,
`metadata` is an object with a string `name`, `resourceVersion` is absent or a string and
`labels` is absent or an object of strings. -/
theorem populateFromObject_ok_iff (t : thirdPartyResourceDataCodec)
    (objIn : ThirdPartyResourceData) (mapObj : GoMap JSON) (data : String) :
    (∃ o, populateFromObject t objIn mapObj data = (o, none)) ↔
      ∃ metadata,
        mapGet mapObj "kind" = some (JSON.str t.kind) ∧
        mapGet mapObj "metadata" = some (JSON.obj metadata) ∧
        (∃ name, mapGet metadata "name" = some (JSON.str name)) ∧
        (mapGet metadata "resourceVersion" = none ∨
          ∃ s, mapGet metadata "resourceVersion" = some (JSON.str s)) ∧
        (mapGet metadata "labels" = none ∨
          ∃ labelMap, mapGet metadata "labels" = some (JSON.obj labelMap) ∧
            ∀ kv ∈ labelMap, ∃ s, kv.2 = JSON.str s) := by
  constructor
  · rintro ⟨o, h⟩
    obtain ⟨metadata, name, o1, o2, hkind, hmeta, hrv, hname, hl, -⟩ :=
      populateFromObject_ok.mp h
    refine ⟨metadata, hkind, hmeta, ⟨name, hname⟩, ?_, ?_⟩
    · rcases populateResourceVersion_cases objIn metadata with
        ⟨s, hs, -⟩ | ⟨hn, -⟩ | ⟨-, hbad⟩
      · exact Or.inr ⟨s, hs⟩
      · exact Or.inl hn
      · rw [hbad] at hrv
        simp at hrv
    · rcases populateLabelsBlock_cases o1 metadata with
        ⟨hn, -⟩ | ⟨labelMap, hlm, heq⟩ | ⟨-, hbad⟩
      · exact Or.inl hn
      · refine Or.inr ⟨labelMap, hlm, ?_⟩
        apply (populateLabels_ok_iff labelMap o1).mp
        rw [← heq, hl]
      · rw [hbad] at hl
        simp at hl
  · rintro ⟨metadata, hkind, hmeta, ⟨name, hname⟩, hrv, hl⟩
    have h1 : ∃ o1, populateResourceVersion objIn metadata = (o1, none) := by
      rcases hrv with hrv | ⟨s, hrv⟩
      · exact ⟨objIn, by simp [populateResourceVersion, hrv]⟩
      · exact ⟨_, by simp [populateResourceVersion, hrv]; rfl⟩
    obtain ⟨o1, ho1⟩ := h1
    have h2 : ∃ o2, populateLabelsBlock o1 metadata = (o2, none) := by
      rcases hl with hl | ⟨labelMap, hl, hall⟩
      · exact ⟨o1, by simp [populateLabelsBlock, hl]⟩
      · obtain ⟨o2, ho2⟩ := populateLabels_ok_of_strings labelMap o1 hall
        exact ⟨o2, by simp [populateLabelsBlock, hl, ho2]⟩
    obtain ⟨o2, ho2⟩ := h2
    exact ⟨_, populateFromObject_ok.mpr ⟨metadata, name, o1, o2, hkind, hmeta, ho1, hname, ho2, rfl⟩⟩

/-- C11. Mapping resolution rejects bad requests.  For every overlay bound to `(K, V)` and
every wrapped mapper, `RESTMapping(kind, versions...)` returns an error, hence no mapping,
when the number of versions is not one, when the single version is not `V`, and when the
kind is not the literal `ThirdPartyResourceData`; the error is produced by the overlay
itself and is the same whatever the wrapped mapper is. -/
theorem RESTMapping_rejects (latestVersion : String) (t : thirdPartyResourceDataMapper)
    (kind : String) (versions : List String) :
    (versions.length ≠ 1 →
      t.RESTMapping latestVersion kind versions =
        Except.error (Err.unexpectedSetOfVersions versions)) ∧
    (∀ version, versions = [version] → version ≠ t.version →
      t.RESTMapping latestVersion kind versions =
        Except.error (Err.unknownVersion version t.version)) ∧
    (kind ≠ "ThirdPartyResourceData" →
      t.RESTMapping latestVersion kind versions =
          Except.error (Err.unexpectedSetOfVersions versions) ∨
        (∃ version, t.RESTMapping latestVersion kind versions =
          Except.error (Err.unknownVersion version t.version)) ∨
        t.RESTMapping latestVersion kind versions =
          Except.error (Err.unknownKind kind t.kind)) := by
  have hlen : versions.length ≠ 1 →
      t.RESTMapping latestVersion kind versions =
        Except.error (Err.unexpectedSetOfVersions versions) := by
    intro h
    match versions, h with
    | [], _ => rfl
    | [v], h => exact absurd rfl h
    | _ :: _ :: _, _ => rfl
  have hver : ∀ version, versions = [version] → version ≠ t.version →
      t.RESTMapping latestVersion kind versions =
        Except.error (Err.unknownVersion version t.version) := by
    intro version hv hne
    subst hv
    simp [thirdPartyResourceDataMapper.RESTMapping, hne]
  refine ⟨hlen, hver, ?_⟩
  intro hkind
  by_cases h1 : versions.length = 1
  · match versions, h1 with
    | [version], _ =>
      by_cases h2 : version = t.version
      · right; right
        simp [thirdPartyResourceDataMapper.RESTMapping, h2, hkind]
      · right; left
        exact ⟨version, hver version rfl h2⟩
  · exact Or.inl (hlen h1)

/-- C11 (witness). The overlay of the binding `(Foo, v1alpha1)` rejects an empty set of
versions, two versions, another version and another kind. -/
theorem RESTMapping_rejects_witness :
    fooMapper.RESTMapping "v1" "ThirdPartyResourceData" [] =
      Except.error (Err.unexpectedSetOfVersions []) ∧
    fooMapper.RESTMapping "v1" "ThirdPartyResourceData" ["v1alpha1", "v1"] =
      Except.error (Err.unexpectedSetOfVersions ["v1alpha1", "v1"]) ∧
    fooMapper.RESTMapping "v1" "ThirdPartyResourceData" ["v1"] =
      Except.error (Err.unknownVersion "v1" fooMapper.version) :=
  ⟨(RESTMapping_rejects "v1" fooMapper "ThirdPartyResourceData" []).1 (by decide),
   (RESTMapping_rejects "v1" fooMapper "ThirdPartyResourceData" ["v1alpha1", "v1"]).1
     (by decide),
   (RESTMapping_rejects "v1" fooMapper "ThirdPartyResourceData" ["v1"]).2.1 "v1" rfl
     (by decide)⟩

/-- C12 (amended). For every binding with kind `K` and version `V` whose wrapped mapper
resolves the synthetic type, `RESTMapping("ThirdPartyResourceData", V)` succeeds and returns
a mapping whose codec successfully decodes every payload with kind `K`, a metadata object
carrying a string name, a `resourceVersion` that is absent or a string and `labels` that
are absent or an object with only string values. -/
theorem RESTMapping_codec_decodes (unmarshal : Unmarshal) (latestVersion : String)
    (t : thirdPartyResourceDataMapper) (m : RESTMapping Delegate)
    (hwrapped : t.mapper.RESTMapping "ThirdPartyResourceData" [latestVersion] = Except.ok m) :
    ∃ mapping, t.RESTMapping latestVersion "ThirdPartyResourceData" [t.version] =
        Except.ok mapping ∧
      ∀ (data name : String) (mapObj metadata : GoMap JSON),
        unmarshal data = Except.ok (JSON.obj mapObj) →
        mapGet mapObj "kind" = some (JSON.str t.kind) →
        mapGet mapObj "metadata" = some (JSON.obj metadata) →
        mapGet metadata "name" = some (JSON.str name) →
        (mapGet metadata "resourceVersion" = none ∨
          ∃ s, mapGet metadata "resourceVersion" = some (JSON.str s)) →
        (mapGet metadata "labels" = none ∨
          ∃ labelMap, mapGet metadata "labels" = some (JSON.obj labelMap) ∧
            ∀ kv ∈ labelMap, ∃ s, kv.2 = JSON.str s) →
        ∃ obj, Decode unmarshal mapping.Codec data = Except.ok obj := by
  refine ⟨_, by rw [RESTMapping_of_checks, hwrapped], ?_⟩
  intro data name mapObj metadata hparse hkind hmeta hname hrv hl
  obtain ⟨o, ho⟩ :=
    (populateFromObject_ok_iff (NewCodec m.Codec t.kind) ThirdPartyResourceData.empty mapObj
      data).mpr ⟨metadata, hkind, hmeta, ⟨name, hname⟩, hrv, hl⟩
  exact ⟨Object.thirdPartyResourceData o,
    Decode_eq_ok.mpr ⟨o, rfl, populate_ok.mpr ⟨mapObj, hparse, ho⟩⟩⟩

/-- C12 (witness). The overlay of the binding `(Foo, v1alpha1)` resolves the synthetic kind
to a mapping whose codec decodes `{"kind":"Foo","metadata":{"name":"n"}}`. -/
theorem RESTMapping_codec_decodes_witness :
    ∃ mapping, fooMapper.RESTMapping "v1" "ThirdPartyResourceData" [fooMapper.version] =
        Except.ok mapping ∧
      ∃ obj, Decode jsonUnmarshal mapping.Codec minimalPayload = Except.ok obj :=
  match RESTMapping_codec_decodes jsonUnmarshal "v1" fooMapper sampleMapping rfl with
  | ⟨mapping, hm, hdec⟩ =>
    ⟨mapping, hm, hdec minimalPayload "n"
      [("kind", JSON.str "Foo"), ("metadata", JSON.obj [("name", JSON.str "n")])]
      [("name", JSON.str "n")] rfl rfl rfl rfl (Or.inl rfl) (Or.inl rfl)⟩

/-- C12 (counterexample). The overlay of the binding `(Foo, v1alpha1)`, whose wrapped mapper
succeeds, rejects `RESTMapping("Foo", "v1alpha1")`; and the codec that the overlay of the
binding `(ThirdPartyResourceData, v1alpha1)` returns for its own kind rejects the payload
`{"kind":"ThirdPartyResourceData","metadata":{"name":"n","labels":5}}`, which has the
binding's kind and a metadata object carrying a string name. -/
theorem RESTMapping_own_kind_rejected :
    fooMapper.mapper.RESTMapping "ThirdPartyResourceData" ["v1"] = Except.ok sampleMapping ∧
    fooMapper.RESTMapping "v1" fooMapper.kind [fooMapper.version] =
      Except.error (Err.unknownKind "Foo" "Foo") ∧
    (∃ mapping, syntheticMapper.RESTMapping "v1" syntheticMapper.kind [syntheticMapper.version] =
        Except.ok mapping ∧
      Decode jsonUnmarshal mapping.Codec numericLabelsPayload =
        Except.error Err.unexpectedObjectForLabels) :=
  ⟨rfl, rfl, ⟨_, rfl, rfl⟩⟩

/-- C13. The mapping overlay replaces only the codec.  For every overlay bound to `(K, V)`,
when `RESTMapping("ThirdPartyResourceData", V)` is called and the wrapped mapper returns the
mapping `m` for the synthetic type, the result is `m` with its codec replaced by the codec
`NewCodec(m.Codec, K)`, which is bound to `K` and delegates to the original codec of `m`,
every other field being that of `m`; when the wrapped mapper fails, its error is
returned. -/
theorem RESTMapping_replaces_codec (latestVersion : String) (t : thirdPartyResourceDataMapper) :
    (∀ m, t.mapper.RESTMapping "ThirdPartyResourceData" [latestVersion] = Except.ok m →
      ∃ mapping, t.RESTMapping latestVersion "ThirdPartyResourceData" [t.version] =
          Except.ok mapping ∧
        mapping.Codec = NewCodec m.Codec t.kind ∧
        mapping.Codec.kind = t.kind ∧ mapping.Codec.delegate = m.Codec ∧
        mapping.Resource = m.Resource ∧ mapping.APIVersion = m.APIVersion ∧
        mapping.Kind = m.Kind ∧ mapping.Scope = m.Scope) ∧
    (∀ err, t.mapper.RESTMapping "ThirdPartyResourceData" [latestVersion] = Except.error err →
      t.RESTMapping latestVersion "ThirdPartyResourceData" [t.version] = Except.error err) := by
  constructor
  · intro m hm
    exact ⟨_, by rw [RESTMapping_of_checks, hm], rfl, rfl, rfl, rfl, rfl, rfl, rfl⟩
  · intro err herr
    rw [RESTMapping_of_checks, herr]

/-- C13 (witness). The overlay of the binding `(Foo, v1alpha1)` on the sample mapping. -/
theorem RESTMapping_replaces_codec_witness :
    ∃ mapping, fooMapper.RESTMapping "v1" "ThirdPartyResourceData" [fooMapper.version] =
        Except.ok mapping ∧
      mapping.Codec = NewCodec sampleMapping.Codec fooMapper.kind ∧
      mapping.Codec.kind = fooMapper.kind ∧ mapping.Codec.delegate = sampleMapping.Codec ∧
      mapping.Resource = sampleMapping.Resource ∧
      mapping.APIVersion = sampleMapping.APIVersion ∧
      mapping.Kind = sampleMapping.Kind ∧ mapping.Scope = sampleMapping.Scope :=
  (RESTMapping_replaces_codec "v1" fooMapper).1 sampleMapping rfl

/-! ## Object creator -/

/-- C14. Object factory dispatch.  For every creator bound to version `V`, `New(version,
kind)` fails whenever `version` is not `V`, whatever the kind; for version `V` it returns a
new empty entity when the kind is `ThirdPartyResourceData`, a new empty list when the kind
is `ThirdPartyResourceDataList`, and for every other kind exactly what the fallback creator
returns for `(latest.Version, kind)`. -/
theorem New_dispatch (latestVersion : String) (t : thirdPartyResourceDataCreator) :
    (∀ version kind, version ≠ t.version →
      t.New latestVersion version kind =
        Except.error (Err.unknownVersionForKind version kind)) ∧
    t.New latestVersion t.version "ThirdPartyResourceData" =
      Except.ok (Object.thirdPartyResourceData ThirdPartyResourceData.empty) ∧
    t.New latestVersion t.version "ThirdPartyResourceDataList" =
      Except.ok (Object.thirdPartyResourceDataList { Items := [] }) ∧
    (∀ kind, kind ≠ "ThirdPartyResourceData" → kind ≠ "ThirdPartyResourceDataList" →
      t.New latestVersion t.version kind = t.delegate.New latestVersion kind) := by
  refine ⟨?_, ?_, ?_, ?_⟩
  · intro version kind h
    have h' : ¬ t.version = version := fun e => h e.symm
    simp [thirdPartyResourceDataCreator.New, h']
  · simp [thirdPartyResourceDataCreator.New]
  · simp [thirdPartyResourceDataCreator.New]
  · intro kind h1 h2
    simp [thirdPartyResourceDataCreator.New, h1, h2]

/-- C14 (witness). The creator bound to `v1alpha1` rejects the version `v1` and hands the
kind `Pod` to its fallback creator with the reference version `v1`. -/
theorem New_dispatch_witness :
    fooCreator.New "v1" "v1" "ThirdPartyResourceData" =
      Except.error (Err.unknownVersionForKind "v1" "ThirdPartyResourceData") ∧
    fooCreator.New "v1" fooCreator.version "Pod" = fooCreator.delegate.New "v1" "Pod" :=
  ⟨(New_dispatch "v1" fooCreator).1 "v1" "ThirdPartyResourceData" (by decide),
   (New_dispatch "v1" fooCreator).2.2.2 "Pod" (by decide) (by decide)⟩

/-! ## DecodeIntoWithSpecifiedVersionKind -/

/-- The outcomes of the `kind` block: default written into the parsed map, parsed map left
as it is, or an error. -/
theorem checkKind_cases (t : thirdPartyResourceDataCodec) (mapObj : GoMap JSON)
    (kind : String) :
    (mapGet mapObj "kind" = none ∧
      checkKind t mapObj kind = Except.ok (mapSet mapObj "kind" (JSON.str kind))) ∨
    (mapGet mapObj "kind" = some (JSON.str t.kind) ∧
      checkKind t mapObj kind = Except.ok mapObj) ∨
    ((∃ v, mapGet mapObj "kind" = some v ∧ v ≠ JSON.str t.kind) ∧
      ∃ e, checkKind t mapObj kind = Except.error e) := by
  unfold checkKind
  cases h : mapGet mapObj "kind" with
  | none => simp
  | some v =>
    cases v with
    | str s =>
      by_cases hs : s = t.kind
      · simp [hs]
      · simp [hs]
    | null => simp
    | bool b => simp
    | number n => simp
    | arr xs => simp
    | obj m => simp

/-- The outcomes of the `apiVersion` block. -/
theorem checkVersion_cases (mapObj : GoMap JSON) (version : String) :
    (mapGet mapObj "apiVersion" = none ∧
      checkVersion mapObj version =
        Except.ok (mapSet mapObj "apiVersion" (JSON.str version))) ∨
    (mapGet mapObj "apiVersion" = some (JSON.str version) ∧
      checkVersion mapObj version = Except.ok mapObj) ∨
    ((∃ v, mapGet mapObj "apiVersion" = some v ∧ v ≠ JSON.str version) ∧
      ∃ e, checkVersion mapObj version = Except.error e) := by
  unfold checkVersion
  cases h : mapGet mapObj "apiVersion" with
  | none => simp
  | some v =>
    cases v with
    | str s =>
      by_cases hs : s = version
      · simp [hs]
      · simp [hs]
    | null => simp
    | bool b => simp
    | number n => simp
    | arr xs => simp
    | obj m => simp

/-- The `kind` block does not change the `apiVersion` entry of the parsed map. -/
theorem checkKind_apiVersion {t : thirdPartyResourceDataCodec} {mapObj mapObj' : GoMap JSON}
    {kind : String} (h : checkKind t mapObj kind = Except.ok mapObj') :
    mapGet mapObj' "apiVersion" = mapGet mapObj "apiVersion" := by
  rcases checkKind_cases t mapObj kind with ⟨-, h1⟩ | ⟨-, h1⟩ | ⟨-, e, h1⟩
  · rw [h1] at h
    simp only [Except.ok.injEq] at h
    subst h
    rw [mapGet_mapSet]
    simp
  · rw [h1] at h
    simp only [Except.ok.injEq] at h
    subst h
    rfl
  · rw [h1] at h
    simp at h

/-- The method on an entity target with the framework kind, for bytes that parse to a JSON
object: the two checks on the parsed map, then `populate` on the bytes. -/
theorem DecodeIntoWithSpecifiedVersionKind_of_parse {unmarshal : Unmarshal}
    {t : thirdPartyResourceDataCodec} {data : String} {mapObj : GoMap JSON}
    (target : ThirdPartyResourceData) (version : String)
    (hparse : unmarshal data = Except.ok (JSON.obj mapObj)) :
    DecodeIntoWithSpecifiedVersionKind unmarshal t data
        (Object.thirdPartyResourceData target) version "ThirdPartyResourceData" =
      match checkKind t mapObj "ThirdPartyResourceData" with
      | Except.error err => (Object.thirdPartyResourceData target, some err)
      | Except.ok mapObj' =>
        match checkVersion mapObj' version with
        | Except.error err => (Object.thirdPartyResourceData target, some err)
        | Except.ok _ =>
          match populate unmarshal t target data with
          | (thirdParty, err) => (Object.thirdPartyResourceData thirdParty, err) := by
  simp [DecodeIntoWithSpecifiedVersionKind, hparse]

/-- The method fails on a target that is not an entity and on a kind argument that is not
the framework kind, and leaves the target as it was. -/
theorem DecodeIntoWithSpecifiedVersionKind_guard (unmarshal : Unmarshal)
    (t : thirdPartyResourceDataCodec) (data : String) (obj : Object) (version kind : String)
    (h : (∀ o, obj ≠ Object.thirdPartyResourceData o) ∨ kind ≠ "ThirdPartyResourceData") :
    ∃ e, DecodeIntoWithSpecifiedVersionKind unmarshal t data obj version kind =
      (obj, some e) := by
  cases obj with
  | thirdPartyResourceData o =>
    rcases h with h | h
    · exact absurd rfl (h o)
    · exact ⟨Err.unexpecetedKind kind, by simp [DecodeIntoWithSpecifiedVersionKind, h]⟩
  | thirdPartyResourceDataList l => exact ⟨_, rfl⟩
  | status s => exact ⟨_, rfl⟩
  | other n => exact ⟨_, rfl⟩

/-- C15. Conflict checks of `DecodeIntoWithSpecifiedVersionKind`.  For every codec bound to
kind `K`, every target, every version argument `v`, every kind argument and every input
that parses to a JSON object, the call returns an error when the payload has a `kind` entry
that is not the string `K`, and returns an error when the payload has an `apiVersion` entry
that is not the string `v`. -/
theorem DecodeIntoWithSpecifiedVersionKind_conflicts (unmarshal : Unmarshal)
    (t : thirdPartyResourceDataCodec) (data : String) (obj : Object) (version kind : String)
    (mapObj : GoMap JSON) (hparse : unmarshal data = Except.ok (JSON.obj mapObj)) :
    (∀ v, mapGet mapObj "kind" = some v → v ≠ JSON.str t.kind →
      ∃ e, (DecodeIntoWithSpecifiedVersionKind unmarshal t data obj version kind).2 =
        some e) ∧
    (∀ v, mapGet mapObj "apiVersion" = some v → v ≠ JSON.str version →
      ∃ e, (DecodeIntoWithSpecifiedVersionKind unmarshal t data obj version kind).2 =
        some e) := by
  by_cases hguard : (∀ o, obj ≠ Object.thirdPartyResourceData o) ∨
      kind ≠ "ThirdPartyResourceData"
  · obtain ⟨e, he⟩ :=
      DecodeIntoWithSpecifiedVersionKind_guard unmarshal t data obj version kind hguard
    exact ⟨fun _ _ _ => ⟨e, by rw [he]⟩, fun _ _ _ => ⟨e, by rw [he]⟩⟩
  · simp only [not_or, not_forall, not_not] at hguard
    obtain ⟨⟨target, rfl⟩, rfl⟩ := hguard
    rw [DecodeIntoWithSpecifiedVersionKind_of_parse target version hparse]
    constructor
    · intro v hv hne
      rcases checkKind_cases t mapObj "ThirdPartyResourceData" with
        ⟨h0, -⟩ | ⟨h0, -⟩ | ⟨-, e, h1⟩
      · rw [hv] at h0; simp at h0
      · rw [hv] at h0
        simp only [Option.some.injEq] at h0
        exact absurd h0 hne
      · rw [h1]
        exact ⟨e, rfl⟩
    · intro v hv hne
      cases hck : checkKind t mapObj "ThirdPartyResourceData" with
      | error e => exact ⟨e, rfl⟩
      | ok mapObj' =>
        have hsame := checkKind_apiVersion hck
        rcases checkVersion_cases mapObj' version with ⟨h0, -⟩ | ⟨h0, -⟩ | ⟨-, e, h1⟩
        · rw [hsame, hv] at h0; simp at h0
        · rw [hsame, hv] at h0
          simp only [Option.some.injEq] at h0
          exact absurd h0 hne
        · simp only [h1]
          exact ⟨e, rfl⟩

/-- C15 (witness). The codec bound to `Foo`, called with version `v1`, rejects the payload
`{"kind":"Foo","apiVersion":"v2","metadata":{"name":"n"}}`. -/
theorem DecodeIntoWithSpecifiedVersionKind_conflicts_witness :
    ∃ e, (DecodeIntoWithSpecifiedVersionKind jsonUnmarshal fooCodec otherVersionPayload
      (Object.thirdPartyResourceData ThirdPartyResourceData.empty) "v1"
      "ThirdPartyResourceData").2 = some e :=
  (DecodeIntoWithSpecifiedVersionKind_conflicts jsonUnmarshal fooCodec otherVersionPayload
    (Object.thirdPartyResourceData ThirdPartyResourceData.empty) "v1" "ThirdPartyResourceData"
    [("kind", JSON.str "Foo"), ("apiVersion", JSON.str "v2"),
      ("metadata", JSON.obj [("name", JSON.str "n")])] rfl).2
    (JSON.str "v2") rfl (by simp)

/-- C16. `DecodeIntoWithSpecifiedVersionKind` requires the framework-level kind.  For every
codec, whatever its binding kind, every input and every target, the call returns an error
and leaves the target as it was when the kind argument is not the literal
`ThirdPartyResourceData`; this includes a kind argument equal to the binding's own kind
when that differs from the literal. -/
theorem DecodeIntoWithSpecifiedVersionKind_framework_kind (unmarshal : Unmarshal)
    (t : thirdPartyResourceDataCodec) (data : String) (obj : Object) (version kind : String)
    (hkind : kind ≠ "ThirdPartyResourceData") :
    (∃ e, DecodeIntoWithSpecifiedVersionKind unmarshal t data obj version kind =
      (obj, some e)) ∧
    (∀ target, obj = Object.thirdPartyResourceData target →
      DecodeIntoWithSpecifiedVersionKind unmarshal t data obj version kind =
        (obj, some (Err.unexpecetedKind kind))) := by
  constructor
  · exact DecodeIntoWithSpecifiedVersionKind_guard unmarshal t data obj version kind
      (Or.inr hkind)
  · intro target htarget
    subst htarget
    simp [DecodeIntoWithSpecifiedVersionKind, hkind]

/-- C16 (witness). The codec bound to `Foo` rejects the kind argument `Foo` on a payload of
kind `Foo`. -/
theorem DecodeIntoWithSpecifiedVersionKind_framework_kind_witness :
    DecodeIntoWithSpecifiedVersionKind jsonUnmarshal fooCodec minimalPayload
        (Object.thirdPartyResourceData ThirdPartyResourceData.empty) "v1" fooCodec.kind =
      (Object.thirdPartyResourceData ThirdPartyResourceData.empty,
        some (Err.unexpecetedKind fooCodec.kind)) :=
  (DecodeIntoWithSpecifiedVersionKind_framework_kind jsonUnmarshal fooCodec minimalPayload
    (Object.thirdPartyResourceData ThirdPartyResourceData.empty) "v1" fooCodec.kind
    (by decide)).2 ThirdPartyResourceData.empty rfl

/-! ## Shapes accepted by Encode -/

/-- C17. `Encode` is closed over three shapes.  For every object that is not an entity, a
list or a status object, `Encode` fails; for a status object `Encode` returns exactly what
the delegate codec's `Encode` returns for it, bytes or error. -/
theorem Encode_closed_shapes (t : thirdPartyResourceDataCodec) :
    (∀ obj : Object, (∀ o, obj ≠ Object.thirdPartyResourceData o) →
      (∀ l, obj ≠ Object.thirdPartyResourceDataList l) → (∀ s, obj ≠ Object.status s) →
      Encode t obj = Except.error Err.unexpectedObjectToEncode) ∧
    (∀ s : Status, Encode t (Object.status s) = t.delegate.Encode (Object.status s)) := by
  constructor
  · intro obj h1 h2 h3
    cases obj with
    | thirdPartyResourceData o => exact absurd rfl (h1 o)
    | thirdPartyResourceDataList l => exact absurd rfl (h2 l)
    | status s => exact absurd rfl (h3 s)
    | other n => rfl
  · intro s
    rfl

/-- C17 (witness). An object of another type is rejected; a status object is encoded by the
delegate, successfully by one delegate and with that delegate's error by another. -/
theorem Encode_closed_shapes_witness :
    Encode fooCodec (Object.other "Pod") = Except.error Err.unexpectedObjectToEncode ∧
    Encode (NewCodec messageDelegate "Foo")
        (Object.status { Status := "Failure", Message := "not found", Reason := "NotFound",
                         Code := 404 }) = Except.ok "not found" ∧
    Encode fooCodec
        (Object.status { Status := "Failure", Message := "not found", Reason := "NotFound",
                         Code := 404 }) = Except.error (Err.external "no delegate") :=
  ⟨(Encode_closed_shapes fooCodec).1 (Object.other "Pod") (by simp) (by simp) (by simp),
   (Encode_closed_shapes (NewCodec messageDelegate "Foo")).2 _,
   (Encode_closed_shapes fooCodec).2 _⟩

/-! ## Acceptance condition of Decode -/

/-- C18. Exact acceptance condition of `Decode`.  For every codec bound to `K` and every
input, `Decode` succeeds if and only if the bytes parse to a JSON object whose `kind` is the
string `K`, whose `metadata` is an object, whose `metadata.name` is a string, whose
`metadata.resourceVersion` is absent or a string, and whose `metadata.labels` is absent or
an object with only string values.  In particular input that does not parse is rejected
with the parser's error, and JSON that is not an object is rejected. -/
theorem Decode_accepts_iff (unmarshal : Unmarshal) (t : thirdPartyResourceDataCodec)
    (data : String) :
    ((∃ obj, Decode unmarshal t data = Except.ok obj) ↔
      ∃ mapObj metadata,
        unmarshal data = Except.ok (JSON.obj mapObj) ∧
        mapGet mapObj "kind" = some (JSON.str t.kind) ∧
        mapGet mapObj "metadata" = some (JSON.obj metadata) ∧
        (∃ name, mapGet metadata "name" = some (JSON.str name)) ∧
        (mapGet metadata "resourceVersion" = none ∨
          ∃ s, mapGet metadata "resourceVersion" = some (JSON.str s)) ∧
        (mapGet metadata "labels" = none ∨
          ∃ labelMap, mapGet metadata "labels" = some (JSON.obj labelMap) ∧
            ∀ kv ∈ labelMap, ∃ s, kv.2 = JSON.str s)) ∧
    (∀ err, unmarshal data = Except.error err → Decode unmarshal t data = Except.error err) ∧
    (∀ v, unmarshal data = Except.ok v → (∀ m, v ≠ JSON.obj m) →
      Decode unmarshal t data = Except.error Err.unexpectedObject) := by
  refine ⟨?_, ?_, ?_⟩
  · constructor
    · rintro ⟨obj, h⟩
      obtain ⟨o, -, hp⟩ := Decode_eq_ok.mp h
      obtain ⟨mapObj, hparse, hpo⟩ := populate_ok.mp hp
      obtain ⟨metadata, hrest⟩ :=
        (populateFromObject_ok_iff t ThirdPartyResourceData.empty mapObj data).mp ⟨o, hpo⟩
      exact ⟨mapObj, metadata, hparse, hrest⟩
    · rintro ⟨mapObj, metadata, hparse, hrest⟩
      obtain ⟨o, ho⟩ :=
        (populateFromObject_ok_iff t ThirdPartyResourceData.empty mapObj data).mpr
          ⟨metadata, hrest⟩
      exact ⟨Object.thirdPartyResourceData o,
        Decode_eq_ok.mpr ⟨o, rfl, populate_ok.mpr ⟨mapObj, hparse, ho⟩⟩⟩
  · intro err herr
    simp [Decode, populate, herr]
  · intro v hv hno
    cases v with
    | obj m => exact absurd rfl (hno m)
    | null => simp [Decode, populate, hv]
    | bool b => simp [Decode, populate, hv]
    | number n => simp [Decode, populate, hv]
    | str s => simp [Decode, populate, hv]
    | arr xs => simp [Decode, populate, hv]

/-- C18 (witness). The codec bound to `Foo` rejects the text `foo`, which is not JSON, and
the JSON array `[1]`, and accepts `{"kind":"Foo","metadata":{"name":"n"}}`. -/
theorem Decode_accepts_iff_witness :
    Decode jsonUnmarshal fooCodec "foo" = Except.error (Err.external "invalid JSON") ∧
    Decode jsonUnmarshal fooCodec "[1]" = Except.error Err.unexpectedObject ∧
    ∃ obj, Decode jsonUnmarshal fooCodec minimalPayload = Except.ok obj :=
  ⟨(Decode_accepts_iff jsonUnmarshal fooCodec "foo").2.1 _ rfl,
   (Decode_accepts_iff jsonUnmarshal fooCodec "[1]").2.2 (JSON.arr [JSON.number "1"]) rfl
     (by simp),
   (Decode_accepts_iff jsonUnmarshal fooCodec minimalPayload).1.mpr
     ⟨[("kind", JSON.str "Foo"), ("metadata", JSON.obj [("name", JSON.str "n")])],
      [("name", JSON.str "n")], rfl, rfl, rfl, ⟨"n", rfl⟩, Or.inl rfl, Or.inl rfl⟩⟩

/-! ## Defaults of DecodeIntoWithSpecifiedVersionKind -/

/-- C19. Defaults never reach the stored bytes.  Whenever
`DecodeIntoWithSpecifiedVersionKind` succeeds on an entity target, fresh or not, the target
after the call is the one `DecodeInto` produces from the same bytes and the same target, and
its `Data` is exactly the input bytes: no default `kind` or `apiVersion` is stored. -/
theorem DecodeIntoWithSpecifiedVersionKind_stores_input (unmarshal : Unmarshal)
    (t : thirdPartyResourceDataCodec) (data version kind : String)
    (target : ThirdPartyResourceData) (after : Object)
    (h : DecodeIntoWithSpecifiedVersionKind unmarshal t data
      (Object.thirdPartyResourceData target) version kind = (after, none)) :
    DecodeInto unmarshal t data (Object.thirdPartyResourceData target) = (after, none) ∧
    ∃ o, after = Object.thirdPartyResourceData o ∧ o.Data = data := by
  have hpop : ∃ o, populate unmarshal t target data = (o, none) ∧
      after = Object.thirdPartyResourceData o := by
    simp only [DecodeIntoWithSpecifiedVersionKind] at h
    split at h
    · simp at h
    · split at h
      · simp at h
      · split at h
        · split at h
          · simp at h
          · split at h
            · simp at h
            · cases hp : populate unmarshal t target data with
              | mk o err =>
                rw [hp] at h
                simp only [Prod.mk.injEq] at h
                obtain ⟨h1, h2⟩ := h
                subst h2
                exact ⟨o, rfl, h1.symm⟩
        · simp at h
  obtain ⟨o, hp, rfl⟩ := hpop
  refine ⟨?_, o, rfl, populate_ok_data hp⟩
  simp [DecodeInto, hp]

/-- C19 (witness). The payload `{"kind":"Foo","metadata":{"name":"n"}}` omits `apiVersion`;
decoded with version `v1` into a fresh target it is stored as it came. -/
theorem DecodeIntoWithSpecifiedVersionKind_stores_input_witness :
    DecodeInto jsonUnmarshal fooCodec minimalPayload
        (Object.thirdPartyResourceData ThirdPartyResourceData.empty) =
      (Object.thirdPartyResourceData
        { Name := "n", Namespace := "", Labels := none, ResourceVersion := "",
          Data := minimalPayload }, none) ∧
    ∃ o, Object.thirdPartyResourceData
          { Name := "n", Namespace := "", Labels := none, ResourceVersion := "",
            Data := minimalPayload } = Object.thirdPartyResourceData o ∧
      o.Data = minimalPayload :=
  DecodeIntoWithSpecifiedVersionKind_stores_input jsonUnmarshal fooCodec minimalPayload "v1"
    "ThirdPartyResourceData" ThirdPartyResourceData.empty _ rfl

/-- C20. Kind defaulting never rescues a payload without kind.  For every codec, every
target, every version and kind argument and every input that parses to a JSON object with no
top-level `kind` entry, `DecodeIntoWithSpecifiedVersionKind` returns an error: the kind
written into the parsed map is dropped, and `populate` on the bytes rejects the missing
kind. -/
theorem DecodeIntoWithSpecifiedVersionKind_kindless (unmarshal : Unmarshal)
    (t : thirdPartyResourceDataCodec) (data : String) (obj : Object) (version kind : String)
    (mapObj : GoMap JSON) (hparse : unmarshal data = Except.ok (JSON.obj mapObj))
    (hkind : mapGet mapObj "kind" = none) :
    ∃ e, (DecodeIntoWithSpecifiedVersionKind unmarshal t data obj version kind).2 =
      some e := by
  by_cases hguard : (∀ o, obj ≠ Object.thirdPartyResourceData o) ∨
      kind ≠ "ThirdPartyResourceData"
  · obtain ⟨e, he⟩ :=
      DecodeIntoWithSpecifiedVersionKind_guard unmarshal t data obj version kind hguard
    exact ⟨e, by rw [he]⟩
  · simp only [not_or, not_forall, not_not] at hguard
    obtain ⟨⟨target, rfl⟩, rfl⟩ := hguard
    rw [DecodeIntoWithSpecifiedVersionKind_of_parse target version hparse]
    have hpop : populate unmarshal t target data =
        (target, some Err.unexpectedObjectForKind) := by
      simp [populate, hparse, populateFromObject, hkind, asString]
    cases hck : checkKind t mapObj "ThirdPartyResourceData" with
    | error e => exact ⟨e, rfl⟩
    | ok mapObj' =>
      dsimp only
      cases hcv : checkVersion mapObj' version with
      | error e => exact ⟨e, rfl⟩
      | ok mapObj'' => exact ⟨Err.unexpectedObjectForKind, by simp [hpop]⟩

/-- C20 (witness). The payload `{"metadata":{"name":"n"}}` is rejected by the codec bound to
`Foo` although the kind argument is the framework kind. -/
theorem DecodeIntoWithSpecifiedVersionKind_kindless_witness :
    ∃ e, (DecodeIntoWithSpecifiedVersionKind jsonUnmarshal fooCodec kindlessPayload
      (Object.thirdPartyResourceData ThirdPartyResourceData.empty) "v1"
      "ThirdPartyResourceData").2 = some e :=
  DecodeIntoWithSpecifiedVersionKind_kindless jsonUnmarshal fooCodec kindlessPayload
    (Object.thirdPartyResourceData ThirdPartyResourceData.empty) "v1" "ThirdPartyResourceData"
    [("metadata", JSON.obj [("name", JSON.str "n")])] rfl rfl

/-! ## List encoding as concatenation -/

/-- The text `Encode` produces for a list, as a concatenation around the kind and the
joined bodies. -/
theorem Encode_list_eq (t : thirdPartyResourceDataCodec) (items : List ThirdPartyResourceData) :
    Encode t (Object.thirdPartyResourceDataList { Items := items }) =
      Except.ok ("\x7b\n  \"kind\": \"" ++ t.kind ++ "List" ++ "\",\n  \"items\": [ " ++
        ",".intercalate (items.map (fun item => item.Data)) ++ " ]\n\x7d") := by
  simp only [Encode, Sprintf_template, Join_eq_intercalate]
  simp [String.append_assoc]

/-- C21. List encoding is textual concatenation in order.  There are fixed strings `P`, `M`
and `S` such that for every binding kind `K` and every list of items, whatever their raw
bodies are, `Encode` succeeds with the output `P ++ K ++ "List" ++ M ++ J ++ S`, where `J`
is the raw bodies of the items, unchanged and in list order, joined by single commas; for
the empty list `J` is the empty string. -/
theorem Encode_list_concatenation :
    ∃ P M S : String, ∀ (t : thirdPartyResourceDataCodec)
        (items : List ThirdPartyResourceData),
      Encode t (Object.thirdPartyResourceDataList { Items := items }) =
        Except.ok (P ++ t.kind ++ "List" ++ M ++
          ",".intercalate (items.map (fun item => item.Data)) ++ S) ∧
      Encode t (Object.thirdPartyResourceDataList { Items := [] }) =
        Except.ok (P ++ t.kind ++ "List" ++ M ++ "" ++ S) :=
  ⟨"\x7b\n  \"kind\": \"", "\",\n  \"items\": [ ", " ]\n\x7d",
    fun t items => ⟨Encode_list_eq t items, Encode_list_eq t []⟩⟩

/-- C21 (witness). The codec bound to `Foo` encodes a list whose bodies `oops` and `[1,` are
not JSON by placing them, joined by a comma, between the fixed strings. -/
theorem Encode_list_concatenation_witness :
    ∃ P M S : String,
      Encode fooCodec (Object.thirdPartyResourceDataList
          { Items := [entityWithBody "oops", entityWithBody "[1,"] }) =
        Except.ok (P ++ "Foo" ++ "List" ++ M ++ ("oops" ++ "," ++ "[1,") ++ S) ∧
      Encode fooCodec (Object.thirdPartyResourceDataList { Items := [] }) =
        Except.ok (P ++ "Foo" ++ "List" ++ M ++ "" ++ S) :=
  match Encode_list_concatenation with
  | ⟨P, M, S, h⟩ =>
    ⟨P, M, S, (h fooCodec [entityWithBody "oops", entityWithBody "[1,"]).1,
      (h fooCodec []).2⟩

end ThirdPartyCodec
